import Mathlib

/-!
Shallow embedding of the PointNet++ encoder/decoder in
`ml3d/torch/models/pointnet.py` and of the name-resolution behaviour of
`SemanticSegmentation.run_test` in `ml3d/torch/pipelines/semantic_segmentation.py`.

Tensors are modelled per point cloud: a coordinate tensor `(N, 3)` becomes
`List Point`, a feature tensor `(C, N)` becomes `FeatTensor` (point-major:
one channel vector per point; the layout transposes in the Python code are
layout-only).  Values are exact rationals.  Python runtime failures are
modelled with `Except PyError`.

The low-level primitives (`pointnet2_utils.*`, `gen_CNN`) are not part of the
two source files; they are modelled from the spec (section 6 "EXTERNAL
INTERFACES") and are marked `Modelled from the spec:` below.
-/

deriving instance DecidableEq for Except

set_option maxRecDepth 100000

/-- The Python exceptions that the modelled code can raise.  `assertionError`
and `nameError` carry the message / offending name. -/
inductive PyError where
  | nameError (missing : String)
  | attributeError
  | indexError
  | assertionError (msg : String)
  | notImplementedError
  | runtimeError
  deriving Repr, DecidableEq

/-- The message a Python exception prints; a bare `assert` has an empty one. -/
def PyError.message : PyError → String
  | .nameError s => s
  | .assertionError s => s
  | _ => ""

/-- Effectful map over a list, propagating the first raised exception
(the order Python loops evaluate in). -/
def mapExcept (f : α → Except PyError β) : List α → Except PyError (List β)
  | [] => .ok []
  | a :: as => do
    let b ← f a
    let bs ← mapExcept f as
    .ok (b :: bs)

/-- Python list indexing with a nonnegative index: `l[i]`, `IndexError` when
out of range. -/
def pyGet (l : List α) (i : ℕ) : Except PyError α :=
  match l.get? i with
  | some a => .ok a
  | none => .error .indexError

/-- Python list indexing with a negative index: `l[-j]` (with `j ≥ 1`),
`IndexError` when `j` exceeds the length. -/
def pyGetNeg (l : List α) (j : ℕ) : Except PyError α :=
  if 1 ≤ j ∧ j ≤ l.length then pyGet l (l.length - j) else .error .indexError

/-- A 3D point. -/
abbrev Point : Type := ℚ × ℚ × ℚ

/-- One point's feature (channel) vector; its length is the channel width. -/
abbrev Feat : Type := List ℚ

/-- A per-point feature tensor: one channel vector per point. -/
abbrev FeatTensor : Type := List Feat

/-- Squared Euclidean distance between two points. -/
def dist2 (a b : Point) : ℚ :=
  (a.1 - b.1) ^ 2 + (a.2.1 - b.2.1) ^ 2 + (a.2.2 - b.2.2) ^ 2

/-- Binary maximum on ℚ, written out so that concrete runs evaluate inside
the kernel; equal to `max` (see `pyMax_eq_max`). -/
def pyMax (a b : ℚ) : ℚ := if a ≤ b then b else a

/-- Binary minimum on ℚ, written out so that concrete runs evaluate inside
the kernel; equal to `min` (see `pyMin_eq_min`). -/
def pyMin (a b : ℚ) : ℚ := if a ≤ b then a else b

/-- The epsilon `1e-8` added to distances in `PointnetFPModule.forward`. -/
def fpEps : ℚ := 1 / 100000000

/-- `dist_recip = 1.0 / (dist + 1e-8)` (`PointnetFPModule.forward`,
line 210). -/
def fpRecip (d : ℚ) : ℚ := 1 / (d + fpEps)

/-- The three interpolation weights computed in `PointnetFPModule.forward`
(lines 210-212): `dist_recip = 1.0 / (dist + 1e-8)`,
`norm = sum(dist_recip)`, `weight = dist_recip / norm`. -/
def fpWeights (d1 d2 d3 : ℚ) : ℚ × ℚ × ℚ :=
  (fpRecip d1 / (fpRecip d1 + fpRecip d2 + fpRecip d3),
   fpRecip d2 / (fpRecip d1 + fpRecip d2 + fpRecip d3),
   fpRecip d3 / (fpRecip d1 + fpRecip d2 + fpRecip d3))

/-- Modelled from the spec: `gen_CNN` (in `ml3d/torch/utils/torch_utils`, not
among the source files) builds a ChannelTransform, an opaque parameterized
pointwise function with declared input width `spec[0]` and output width
`spec[-1]`; a width mismatch is a runtime shape error at the first forward
call.  The transform's values are out of scope, so they are instantiated
concretely (every output channel is the sum of the inputs); nothing below
asserts anything about them. -/
def cnnApply (spec : List ℕ) (v : Feat) : Except PyError Feat :=
  if v.length = spec.headD 0 then .ok (List.replicate (spec.getLastD 0) v.sum)
  else .error .runtimeError

/-- Minimum squared distance from `p` to a nonempty set of already chosen
points (`0` for the empty set, which the sampler never queries). -/
def minDist2 (p : Point) (chosen : List Point) : ℚ :=
  match chosen.map (dist2 p) with
  | [] => 0
  | d :: ds => ds.foldl pyMin d

/-- Index of the first entry of `xyz` maximizing `minDist2 · chosen`
(first index wins ties, keeping the sampler deterministic). -/
def argmaxMinDist2 (xyz : List Point) (chosen : List Point) : ℕ :=
  (xyz.enum.foldl
    (fun best cur =>
      if minDist2 cur.2 chosen > minDist2 (xyz.getD best (0, 0, 0)) chosen
      then cur.1 else best) 0)

/-- One greedy selection round repeated `k` times. -/
def fpsRounds (xyz : List Point) : ℕ → List ℕ → List ℕ
  | 0, acc => acc.reverse
  | k + 1, acc =>
      let next := argmaxMinDist2 xyz (acc.map (fun i => xyz.getD i (0, 0, 0)))
      fpsRounds xyz k (next :: acc)

/-- Modelled from the spec: `pointnet2_utils.furthest_point_sample`
(external, section 6): deterministic greedy max-min-distance selection of
`M` indices, starting from index 0; fails if `M > N`. -/
def furthest_point_sample (xyz : List Point) (M : ℕ) : Except PyError (List ℕ) :=
  if M > xyz.length then .error .runtimeError
  else if M = 0 then .ok []
  else .ok (fpsRounds xyz (M - 1) [0])

/-- Modelled from the spec: `pointnet2_utils.gather_operation` (external,
section 6): indexed gather of coordinates. -/
def gather_operation (xyz : List Point) (idx : List ℕ) : List Point :=
  idx.map (fun i => xyz.getD i (0, 0, 0))

/-- Modelled from the spec: ball query (external, section 6): the indices of
the points within `radius` of center `c`, truncated to `nsample` and padded
by repeating the first valid neighbor when under capacity.  The
under-specified no-valid-neighbor case is resolved as repeated index 0
(matching the zero-initialized index buffer of the reference primitive). -/
def ballQuery (xyz : List Point) (c : Point) (radius : ℚ) (nsample : ℕ) : List ℕ :=
  let valid := (xyz.enum.filter (fun ip => dist2 ip.2 c ≤ radius ^ 2)).map (·.1)
  match valid with
  | [] => List.replicate nsample 0
  | v :: _ => valid.take nsample ++ List.replicate (nsample - valid.length) v

/-- A grouping operator of an SA stage: `pointnet2_utils.QueryAndGroup` when a
finite target point count is set, `pointnet2_utils.GroupAll` for a global
stage. -/
inductive Grouper where
  | queryAndGroup (radius : ℚ) (nsample : ℕ) (use_xyz : Bool)
  | groupAll (use_xyz : Bool)
  deriving Repr, DecidableEq

/-- The channel vector a `QueryAndGroup` grouper produces for neighbor `i` of
center `c`: the relative offset coordinates (when `use_xyz`) followed by the
neighbor's input features. -/
def neighborVec (use_xyz : Bool) (xyz : List Point) (feats : Option FeatTensor)
    (c : Point) (i : ℕ) : Feat :=
  let p := xyz.getD i (0, 0, 0)
  (if use_xyz then [p.1 - c.1, p.2.1 - c.2.1, p.2.2 - c.2.2] else []) ++
    (match feats with
     | some f => f.getD i []
     | none => [])

/-- Modelled from the spec: grouping (external, section 6 and section 4.1
steps 2-3).  `QueryAndGroup` needs explicit centers (the Python code crashes
when `new_xyz` is `None`) and asserts when it would produce empty vectors
(no features and no offsets); `GroupAll` treats the entire set as one
neighborhood, with absolute coordinates in place of offsets.  The result is
one list of neighbor channel vectors per center. -/
def grouperRun (g : Grouper) (xyz : List Point) (new_xyz : Option (List Point))
    (feats : Option FeatTensor) : Except PyError (List (List Feat)) :=
  match g with
  | .queryAndGroup radius nsample use_xyz =>
    match new_xyz with
    | none => .error .attributeError
    | some centers =>
      if feats = none ∧ use_xyz = false then .error (.assertionError "")
      else .ok (centers.map (fun c =>
        (ballQuery xyz c radius nsample).map (neighborVec use_xyz xyz feats c)))
  | .groupAll use_xyz =>
    .ok [xyz.enum.map (fun ip =>
      match feats with
      | some f => (if use_xyz then [ip.2.1, ip.2.2.1, ip.2.2.2] else []) ++ f.getD ip.1 []
      | none => [ip.2.1, ip.2.2.1, ip.2.2.2])]

/-- The three smallest `(squared distance, index)` pairs, ascending
lexicographically, maintained by bounded insertion. -/
def insertBest3 (x : ℚ × ℕ) : List (ℚ × ℕ) → List (ℚ × ℕ)
  | [] => [x]
  | y :: ys =>
      if x.1 < y.1 ∨ (x.1 = y.1 ∧ x.2 < y.2) then (x :: y :: ys).take 3
      else (y :: insertBest3 x ys).take 3

/-- Modelled from the spec: `pointnet2_utils.three_nn` (external, section 6),
for a single query point: the 3 nearest reference points by (squared)
Euclidean distance, ascending, ties broken by ascending index.  Squared
distances keep the arithmetic exact; the ordering is the same. -/
def three_nn1 (q : Point) (ref : List Point) : List (ℚ × ℕ) :=
  (ref.enum.map (fun ip => (dist2 q ip.2, ip.1))).foldl (fun acc x => insertBest3 x acc) []

/-- Elementwise scaled addition `acc + w • v` used for weighted interpolation. -/
def vAddSmul (acc : Feat) (w : ℚ) (v : Feat) : Feat :=
  List.zipWith (fun a b => a + w * b) acc v

/-- Modelled from the spec: `pointnet2_utils.three_interpolate` (external,
section 6) for a single dense point: the weighted sum of the three indexed
sparse feature vectors. -/
def three_interpolate1 (kf : FeatTensor) (outW : ℕ)
    (i1 i2 i3 : ℕ) (w : ℚ × ℚ × ℚ) : Feat :=
  vAddSmul (vAddSmul (vAddSmul (List.replicate outW 0) w.1 (kf.getD i1 []))
    w.2.1 (kf.getD i2 [])) w.2.2 (kf.getD i3 [])

/-- The state `_PointnetSAModuleBase.__init__` / `PointnetSAModuleMSG.__init__`
leave on the module: the target point count (`None` for a global stage), one
grouper per scale, one ChannelTransform width spec per scale (the argument of
`gen_CNN`), and the pooling method string. -/
structure SAModule where
  npoint : Option ℕ
  groupers : List Grouper
  mlps : List (List ℕ)
  pool_method : String
  deriving Repr, DecidableEq

/-- The grouper chosen per scale (lines 152-155): `QueryAndGroup` when the
stage has a target point count, `GroupAll` otherwise. -/
def grouperFor (npoint : Option ℕ) (r : ℚ) (n : ℕ) (use_xyz : Bool) : Grouper :=
  match npoint with
  | some _ => .queryAndGroup r n use_xyz
  | none => .groupAll use_xyz

/-- The in-place width adjustment `if use_xyz: mlp_spec[0] += 3` (lines
157-158); `mlp_spec[0]` on an empty list is an `IndexError`. -/
def saSpecAdjust (use_xyz : Bool) (spec : List ℕ) : Except PyError (List ℕ) :=
  if use_xyz then
    match spec with
    | [] => .error .indexError
    | h :: t => .ok ((h + 3) :: t)
  else .ok spec

/-- The per-scale constructor loop of `PointnetSAModuleMSG.__init__`
(lines 149-160), iterating over `radii`, `nsamples` and `mlps` in parallel:
appends a grouper, mutates `mlp_spec[0] += 3` in place when `use_xyz`
(an `IndexError` on an empty spec), and records the spec handed to
`gen_CNN`.  Because the `+= 3` hits the caller's list objects, the recorded
specs are exactly the post-construction state of the caller's `mlps`
argument. -/
def saInitLoop (npoint : Option ℕ) (use_xyz : Bool) :
    List ℚ → List ℕ → List (List ℕ) → Except PyError (List Grouper × List (List ℕ))
  | [], _, _ => .ok ([], [])
  | r :: rs, n :: ns, spec :: specs => do
    let spec' ← saSpecAdjust use_xyz spec
    let rest ← saInitLoop npoint use_xyz rs ns specs
    .ok (grouperFor npoint r n use_xyz :: rest.1, spec' :: rest.2)
  | _, _, _ => .error .indexError

/-- `PointnetSAModuleMSG.__init__` (lines 130-162): asserts
`len(radii) == len(nsamples) == len(mlps)` (a bare `assert`, so the raised
`AssertionError` carries an empty message and no stage index), then runs the
per-scale loop and stores `pool_method` without any validation.  Returns the
module together with the post-construction state of the caller's `mlps`
argument (mutated in place when `use_xyz`). -/
def pointnetSAModuleMSG_init (npoint : Option ℕ) (radii : List ℚ)
    (nsamples : List ℕ) (mlps : List (List ℕ)) (use_xyz : Bool)
    (pool_method : String) : Except PyError (SAModule × List (List ℕ)) :=
  if radii.length = nsamples.length ∧ nsamples.length = mlps.length then do
    let p ← saInitLoop npoint use_xyz radii nsamples mlps
    .ok (⟨npoint, p.1, p.2, pool_method⟩, p.2)
  else .error (.assertionError "")

/-- Max pooling over the neighbor dimension for one center, elementwise over
channels (`F.max_pool2d` with kernel spanning the whole neighbor axis,
line 111-113); pooling an empty neighbor axis is a runtime error. -/
def pool1max : List Feat → Except PyError Feat
  | [] => .error .runtimeError
  | v :: rest => .ok (rest.foldl (fun a b => List.zipWith pyMax a b) v)

/-- Average pooling over the neighbor dimension for one center
(`F.avg_pool2d`, lines 115-117). -/
def pool1avg : List Feat → Except PyError Feat
  | [] => .error .runtimeError
  | v :: rest =>
      .ok (((rest.foldl (fun a b => List.zipWith (· + ·) a b) v)).map
        (· / ((rest.length + 1 : ℕ) : ℚ)))

/-- The pooling dispatch of `_PointnetSAModuleBase.forward` (lines 110-119):
`max_pool` and `avg_pool` pool over the neighbor dimension; any other string
reaches the `else` branch and raises `NotImplementedError` — only here, at
forward time, never at construction. -/
def poolScale (pool_method : String) (t : List (List Feat)) :
    Except PyError (List Feat) :=
  if pool_method = "max_pool" then mapExcept pool1max t
  else if pool_method = "avg_pool" then mapExcept pool1avg t
  else .error .notImplementedError

/-- `torch.cat(new_features_list, dim=1)` (line 124): channel-wise
concatenation of per-scale tensors; an empty list or mismatched point counts
are runtime errors. -/
def catChannels : List FeatTensor → Except PyError FeatTensor
  | [] => .error .runtimeError
  | t :: ts =>
      if ts.all (fun u => u.length = t.length) then
        .ok (ts.foldl (fun a b => List.zipWith (· ++ ·) a b) t)
      else .error .runtimeError

/-- One scale of `_PointnetSAModuleBase.forward` (lines 106-122): group,
apply the scale's ChannelTransform to every neighbor of every center, pool
over the neighbor dimension. -/
def saScale (xyz : List Point) (new_xyz : Option (List Point))
    (feats : Option FeatTensor) (pool_method : String)
    (gs : Grouper × List ℕ) : Except PyError FeatTensor := do
  let grouped ← grouperRun gs.1 xyz new_xyz feats
  let transformed ← mapExcept (fun nbrs => mapExcept (cnnApply gs.2) nbrs) grouped
  poolScale pool_method transformed

/-- The center selection of `_PointnetSAModuleBase.forward` (lines 100-104):
explicit centers win; otherwise `new_xyz` stays `None` for a global stage
(`self.npoint is None`) and is chosen by furthest-point sampling and
gathering otherwise. -/
def saNewXyz (npoint : Option ℕ) (xyz : List Point)
    (new_xyz_arg : Option (List Point)) : Except PyError (Option (List Point)) :=
  match new_xyz_arg with
  | some nx => .ok (some nx)
  | none =>
    match npoint with
    | some np => do
      let idx ← furthest_point_sample xyz np
      .ok (some (gather_operation xyz idx))
    | none => .ok none

/-- `_PointnetSAModuleBase.forward` (lines 88-124): choose the centers, then
group, transform and pool each scale, and concatenate the per-scale results
along the channel axis. -/
def sa_forward (m : SAModule) (xyz : List Point) (feats : Option FeatTensor)
    (new_xyz_arg : Option (List Point)) :
    Except PyError (Option (List Point) × FeatTensor) := do
  let new_xyz ← saNewXyz m.npoint xyz new_xyz_arg
  let pooled ← mapExcept (saScale xyz new_xyz feats m.pool_method)
    (m.groupers.zip m.mlps)
  let catted ← catChannels pooled
  .ok (new_xyz, catted)

/-- The state `PointnetFPModule.__init__` (lines 189-195) leaves on the
module: the ChannelTransform width spec handed to `gen_CNN`. -/
structure FPModule where
  mlp : List ℕ
  deriving Repr, DecidableEq

/-- Distance-weighted interpolation of one dense point's feature vector from
its three nearest sparse points (`PointnetFPModule.forward`, lines 209-214),
with the weights of `fpWeights`. -/
def fpInterpolate1 (known : List Point) (kf : FeatTensor) (q : Point) : Feat :=
  match three_nn1 q known with
  | [(d1, i1), (d2, i2), (d3, i3)] =>
      three_interpolate1 kf (kf.headD []).length i1 i2 i3 (fpWeights d1 d2 d3)
  | _ => []

/-- Using `None` where Python expects a tensor: an `AttributeError` at the
first attribute access. -/
def pyUnwrap : Option α → Except PyError α
  | some a => .ok a
  | none => .error .attributeError

/-- The interpolation phase of `PointnetFPModule.forward` (lines 208-216):
3-NN weighted interpolation when sparse coordinates exist (the modelled 3-NN
needs at least 3 reference points), otherwise the `expand` broadcast of the
lone sparse feature row (which also accepts an already-matching row
count). -/
def fpInterp (u : List Point) (known : Option (List Point)) (kf : FeatTensor) :
    Except PyError FeatTensor :=
  match known with
  | some k =>
    if 3 ≤ k.length then .ok (u.map (fpInterpolate1 k kf))
    else .error .runtimeError
  | none =>
    if kf.length = 1 then .ok (List.replicate u.length (kf.headD []))
    else if kf.length = u.length then .ok kf
    else .error .runtimeError

/-- The skip-feature concatenation of `PointnetFPModule.forward` (lines
218-221): channel-wise `torch.cat` when skip features exist (equal row
counts required). -/
def fpConcat (interpolated : FeatTensor) (unknow_feats : Option FeatTensor) :
    Except PyError FeatTensor :=
  match unknow_feats with
  | some uf =>
    if uf.length = interpolated.length then
      .ok (List.zipWith (· ++ ·) interpolated uf)
    else .error .runtimeError
  | none => .ok interpolated

/-- `PointnetFPModule.forward` (lines 197-226): interpolate, concatenate the
skip features, apply the stage's ChannelTransform per point.  `None` where a
tensor is required is an `AttributeError`, as in Python. -/
def fp_forward (m : FPModule) (unknown : Option (List Point))
    (known : Option (List Point)) (unknow_feats : Option FeatTensor)
    (known_feats : Option FeatTensor) : Except PyError FeatTensor := do
  let u ← pyUnwrap unknown
  let kf ← pyUnwrap known_feats
  let interpolated ← fpInterp u known kf
  let new_features ← fpConcat interpolated unknow_feats
  mapExcept (cnnApply m.mlp) new_features

/-- The state `Pointnet2MSG.__init__` (lines 10-51) leaves on the model.
`skip_channel_list` is the construction-time channel record (a local in the
Python code, kept observable here because the claims refer to it). -/
structure Pointnet2MSG where
  SA_modules : List SAModule
  skip_channel_list : List ℕ
  FP_modules : List FPModule
  deriving Repr, DecidableEq

/-- The declared output width of a prefixed scale spec (`mlps[idx][-1]`,
line 31). -/
def scaleOutWidth (spec : List ℕ) : ℕ := spec.getLastD 0

/-- The SA-stack construction loop of `Pointnet2MSG.__init__` (lines 26-43),
iterating over the per-stage entries of `SA_config` in parallel: each scale
spec is prefixed with the running channel width, `out_channels` is summed
from the spec lasts before the stage constructor's `+= 3` mutation, the
stage is built with `pool_method` left at its `'max_pool'` default, and the
running width and skip record advance.  Returns the modules, the skip-record
tail, and the final `out_channels` (`none` when no stage ran, in which case
the Python name stays unbound). -/
def p2SALoop (use_xyz : Bool) :
    List (Option ℕ) → List (List ℚ) → List (List ℕ) → List (List (List ℕ)) → ℕ →
    Except PyError (List SAModule × List ℕ × Option ℕ)
  | [], _, _, _, _ => .ok ([], [], none)
  | np :: nps, rad :: rads, nsmp :: nss, ml :: mls, in_channels =>
    let prefixed := ml.map (fun spec => in_channels :: spec)
    let out_channels := (prefixed.map scaleOutWidth).sum
    do
      let stage ← pointnetSAModuleMSG_init np rad nsmp prefixed use_xyz "max_pool"
      let rest ← p2SALoop use_xyz nps rads nss mls out_channels
      .ok (stage.1 :: rest.1, out_channels :: rest.2.1,
        some (rest.2.2.getD out_channels))
  | _, _, _, _, _ => .error .indexError

/-- Python `l[-1]`: the last element, an `IndexError` on an empty list. -/
def pyLast (l : List α) : Except PyError α :=
  match l.getLast? with
  | some a => .ok a
  | none => .error .indexError

/-- The `pre_channel` of FP stage `i` (line 48): the next FP stage's last
configured width, or the deepest encoder output width for the deepest
configured stage (a `NameError` when the SA stack is empty and the Python
name `out_channels` was never bound). -/
def fpPreChannel (fp_mlps : List (List ℕ)) (out_channels : Option ℕ) (i : ℕ) :
    Except PyError ℕ :=
  if i + 1 < fp_mlps.length then do
    let nxt ← pyGet fp_mlps (i + 1)
    pyLast nxt
  else
    match out_channels with
    | some w => .ok w
    | none => .error (.nameError "out_channels")

/-- One FP stage construction (lines 47-51):
`PointnetFPModule(mlp=[pre_channel + skip_channel_list[i]] + fp_mlps[i])`. -/
def p2FPLoop (fp_mlps : List (List ℕ)) (skip_channel_list : List ℕ)
    (out_channels : Option ℕ) (i : ℕ) : Except PyError FPModule := do
  let pre_channel ← fpPreChannel fp_mlps out_channels i
  let sk ← pyGet skip_channel_list i
  let fpi ← pyGet fp_mlps i
  .ok ⟨(pre_channel + sk) :: fpi⟩

/-- `Pointnet2MSG.__init__` (lines 10-51): build the SA stack with the
running channel bookkeeping, record `skip_channel_list` (index 0 is the raw
input width), then build one FP module per configured `fp_mlps` entry. -/
def pointnet2MSG_init (in_channels : ℕ) (use_xyz : Bool)
    (npoints : List (Option ℕ)) (radius : List (List ℚ))
    (nsample : List (List ℕ)) (mlps : List (List (List ℕ)))
    (fp_mlps : List (List ℕ)) : Except PyError Pointnet2MSG := do
  let sa ← p2SALoop use_xyz npoints radius nsample mlps in_channels
  let fps ← mapExcept (p2FPLoop fp_mlps (in_channels :: sa.2.1) sa.2.2)
    (List.range fp_mlps.length)
  .ok ⟨sa.1, in_channels :: sa.2.1, fps⟩

/-- `Pointnet2MSG._break_up_pc` (lines 53-60): the first three columns are
the coordinates; the remaining columns, when the row width exceeds 3, are
the features (the tensor's uniform last dimension is read off the first
row). -/
def breakUpPc (pc : List (List ℚ)) : List Point × Option FeatTensor :=
  (pc.map (fun r => (r.getD 0 0, r.getD 1 0, r.getD 2 0)),
   if 3 < (pc.headD []).length then some (pc.map (List.drop 3)) else none)

/-- The SA loop of `Pointnet2MSG.forward` (lines 65-69), recorded as the
depth history `l_xyz, l_features` (index 0 = the raw input pair).  A `None`
coordinate entry fed to a further SA stage is an `AttributeError`
(`xyz.transpose` on `None`). -/
def saLoop : List SAModule → Option (List Point) → Option FeatTensor →
    Except PyError (List (Option (List Point)) × List (Option FeatTensor))
  | [], x, f => .ok ([x], [f])
  | m :: ms, x, f => do
    let xyz ← pyUnwrap x
    let step ← sa_forward m xyz f none
    let rest ← saLoop ms step.1 (some step.2)
    .ok (x :: rest.1, f :: rest.2)

/-- One iteration of the FP loop of `Pointnet2MSG.forward` (lines 71-74) at
loop variable `i = -j`: `l_features[i - 1] = FP_modules[i](l_xyz[i - 1],
l_xyz[i], l_features[i - 1], l_features[i])`, with Python negative
indexing. -/
def fpStep (FPs : List FPModule) (lx : List (Option (List Point)))
    (lf : List (Option FeatTensor)) (j : ℕ) :
    Except PyError (List (Option FeatTensor)) := do
  let fpm ← pyGetNeg FPs j
  let xu ← pyGetNeg lx (j + 1)
  let xk ← pyGetNeg lx j
  let fu ← pyGetNeg lf (j + 1)
  let fk ← pyGetNeg lf j
  let out ← fp_forward fpm xu xk fu fk
  .ok (lf.set (lf.length - (j + 1)) (some out))

/-- The FP loop of `Pointnet2MSG.forward` run over the given sequence of
`j` values (the loop ranges over `i = -1, -2, ..., -len(FP_modules)`, i.e.
`j = 1, ..., K`). -/
def runFP (FPs : List FPModule) (lx : List (Option (List Point))) :
    List (Option FeatTensor) → List ℕ → Except PyError (List (Option FeatTensor))
  | lf, [] => .ok lf
  | lf, j :: js => do
    let lf' ← fpStep FPs lx lf j
    runFP FPs lx lf' js

/-- The `j` values of the FP loop: `1, 2, ..., K`. -/
def fpSteps (K : ℕ) : List ℕ := (List.range K).map (· + 1)

/-- `Pointnet2MSG.forward` (lines 62-76) with the whole depth history
observable: split the input, run the SA stack into `l_xyz, l_features`,
then run the FP loop from the deepest configured stage to the shallowest,
overwriting the shallower feature slot at each step. -/
def pointnet2_forward_full (m : Pointnet2MSG) (pc : List (List ℚ)) :
    Except PyError (List (Option (List Point)) × List (Option FeatTensor)) := do
  let hist ← saLoop m.SA_modules (some (breakUpPc pc).1) (breakUpPc pc).2
  let lf ← runFP m.FP_modules hist.1 hist.2 (fpSteps m.FP_modules.length)
  .ok (hist.1, lf)

/-- The pair `Pointnet2MSG.forward` returns (line 76): `l_xyz[0],
l_features[0]`. -/
def pointnet2_forward (m : Pointnet2MSG) (pc : List (List ℚ)) :
    Except PyError (Option (List Point) × Option FeatTensor) :=
  (pointnet2_forward_full m pc).map (fun h => (h.1.headD none, h.2.headD none))

/-- A Python statement at the granularity of name resolution: the names the
statement's expressions read (for an attribute access or call, the base
name), and the local name it binds, if any. -/
structure PyNameStmt where
  reads : List String
  binds : Option String
  deriving Repr, DecidableEq

/-- Sequential execution of a function body under Python name resolution:
each statement's reads must all be bound (as a parameter, an earlier local,
or a module-level global); the first unbound name raises `NameError` with
that name and aborts, so no later statement runs. -/
def execNames : List String → List PyNameStmt → Except PyError (List String)
  | env, [] => .ok env
  | env, s :: ss =>
    match s.reads.find? (fun r => ¬ env.contains r) with
    | some missing => .error (.nameError missing)
    | none =>
      execNames (match s.binds with
        | some l => l :: env
        | none => env) ss

/-- The names bound at module level in
`ml3d/torch/pipelines/semantic_segmentation.py` (lines 1-30): the imports,
the module logger and the class itself. -/
def semSegModuleGlobals : List String :=
  ["torch", "pickle", "nn", "np", "logging", "sys", "warnings", "datetime",
   "tqdm", "SummaryWriter", "Dataset", "IterableDataset", "DataLoader",
   "Path", "confusion_matrix", "exists", "join", "isfile", "dirname",
   "abspath", "BasePipeline", "get_sampler", "TorchDataloader",
   "DefaultBatcher", "ConcatBatcher", "latest_torch_ckpt", "SemSegLoss",
   "SemSegMetric", "make_dir", "LogRecord", "Config", "PIPELINE",
   "get_runid", "code2md", "DataProcessing", "log", "SemanticSegmentation"]

/-- The body of `SemanticSegmentation.run_test` (lines 160-227) at name
granularity, in source order.  The dataloader construction at line 180-186
reads `train_sampler` (the sampler keyword argument), which no statement of
this function binds — only `test_sampler` is bound at line 178.  The test
loop is the final statement. -/
def runTestBody : List PyNameStmt :=
  [⟨["self"], some "model"⟩,
   ⟨["self"], some "dataset"⟩,
   ⟨["self"], some "device"⟩,
   ⟨["self"], some "cfg"⟩,
   ⟨["model", "device"], none⟩,
   ⟨["model", "device"], none⟩,
   ⟨["datetime"], some "timestamp"⟩,
   ⟨["SemSegMetric", "self", "model", "dataset", "device"], some "metric"⟩,
   ⟨["log", "device"], none⟩,
   ⟨["join", "cfg", "timestamp"], some "log_file_path"⟩,
   ⟨["log", "log_file_path"], none⟩,
   ⟨["log", "logging", "log_file_path"], none⟩,
   ⟨["self", "device"], some "batcher"⟩,
   ⟨["dataset"], some "test_dataset"⟩,
   ⟨["test_dataset"], some "test_sampler"⟩,
   ⟨["TorchDataloader", "test_dataset", "model", "train_sampler", "dataset"],
    some "test_split"⟩,
   ⟨["DataLoader", "test_split", "cfg", "get_sampler", "train_sampler", "self"],
    some "test_loader"⟩,
   ⟨["self", "model"], none⟩,
   ⟨["self"], some "datset_split"⟩,
   ⟨["log"], none⟩,
   ⟨["self"], none⟩,
   ⟨["self"], none⟩,
   ⟨["torch", "tqdm", "test_split", "datset_split", "cfg", "dataset", "self",
     "metric", "np", "log"], none⟩,
   ⟨["cfg", "log", "np", "self"], none⟩]

/-- Running `run_test`'s body with `self` bound (the sole parameter) on top
of the module globals. -/
def runTestExec : Except PyError (List String) :=
  execNames ("self" :: semSegModuleGlobals) runTestBody

/-- Whether a modelled Python computation completed without an exception. -/
def pyOk : Except PyError α → Bool
  | .ok _ => true
  | .error _ => false

/-- The declared output width of one scale of a configured SA stage:
the last entry of its transform spec. -/
def specLasts (ml : List (List ℕ)) : List ℕ := ml.map scaleOutWidth

/-- A concrete partial-decoder model: 3 SA stages (targets 4/3/3, one scale
each, per-scale transform widths 3/2/4, raw feature width 2, relative
offsets on) and exactly 1 configured FP stage of transform width 7.  This is
the value `Pointnet2MSG.__init__ (in_channels=2, use_xyz=True)` produces for
that configuration. -/
def c1model : Pointnet2MSG :=
  ⟨[⟨some 4, [.queryAndGroup 100 2 true], [[5, 3]], "max_pool"⟩,
    ⟨some 3, [.queryAndGroup 100 2 true], [[6, 2]], "max_pool"⟩,
    ⟨some 3, [.queryAndGroup 100 2 true], [[5, 4]], "max_pool"⟩],
   [2, 3, 2, 4],
   [⟨[6, 7]⟩]⟩

/-- A concrete input batch for the partial-decoder run: 5 points with 2
extra feature columns. -/
def c1pc : List (List ℚ) :=
  [[0, 0, 0, 1, 1], [1, 0, 0, 2, 2], [2, 0, 0, 3, 3], [3, 0, 0, 4, 4],
   [4, 0, 0, 5, 5]]

/-- The depth-0 coordinates of `c1pc`. -/
def c1xyz0 : List Point := [(0, 0, 0), (1, 0, 0), (2, 0, 0), (3, 0, 0), (4, 0, 0)]

/-- The depth-1 (that is, depth-(L−2) for L = 3) coordinates the SA stack
produces on `c1pc`: the 4 farthest-point-sampled centers of stage 0. -/
def c1xyz1 : List Point := [(0, 0, 0), (4, 0, 0), (2, 0, 0), (1, 0, 0)]

/-- The raw input features of `c1pc` (channel width 2). -/
def c1rawFeats : FeatTensor := [[1, 1], [2, 2], [3, 3], [4, 4], [5, 5]]

/-- The coordinate-and-width part of claim C1 as stated, instantiated at the
concrete partial-decoder run: `forward` would return the depth-(L−2) = depth-1
history coordinates (not the depth-0 ones), and its feature rows would have
the single FP stage's configured output width 7. -/
def c1ClaimProp : Prop :=
  ∃ lx lf cs f,
    pointnet2_forward_full c1model c1pc = .ok (lx, lf) ∧
    pointnet2_forward c1model c1pc = .ok (some cs, some f) ∧
    some cs = lx.getD 1 none ∧
    f.all (fun r => r.length = 7) = true

/-- A concrete full-decoder model: the 3 SA stages of `c1model` followed by
3 matching FP stages of configured transform widths 6/5/4 (shallow to deep).
This is the value `Pointnet2MSG.__init__` produces for that configuration. -/
def c2model : Pointnet2MSG :=
  ⟨[⟨some 4, [.queryAndGroup 100 2 true], [[5, 3]], "max_pool"⟩,
    ⟨some 3, [.queryAndGroup 100 2 true], [[6, 2]], "max_pool"⟩,
    ⟨some 3, [.queryAndGroup 100 2 true], [[5, 4]], "max_pool"⟩],
   [2, 3, 2, 4],
   [⟨[7, 6]⟩, ⟨[7, 5]⟩, ⟨[6, 4]⟩]⟩

/-- A concrete input batch for the full-decoder run: 5 points with 2 extra
feature columns. -/
def c2pc : List (List ℚ) :=
  [[0, 0, 0, 1, 1], [1, 0, 0, 2, 2], [2, 0, 0, 3, 3], [3, 0, 0, 4, 4],
   [4, 0, 0, 5, 5]]

/-- A concrete global SA stage (`npoint=None`, one scale, transform widths
`[5, 3]`, relative offsets on) — the value `PointnetSAModuleMSG.__init__`
produces for it. -/
def c8stage : SAModule := ⟨none, [.groupAll true], [[5, 3]], "max_pool"⟩

/-- Concrete coordinates for the global-stage run. -/
def c8xyz : List Point := [(0, 0, 0), (1, 0, 0), (2, 0, 0)]

/-- Concrete input features for the global-stage run. -/
def c8feats : FeatTensor := [[1, 1], [2, 2], [3, 3]]

/-- Claim C8 as stated, instantiated at the concrete global-stage run
without explicit centers: the returned centers component would be an actual
coordinate tensor of exactly one row. -/
def c8ClaimProp : Prop :=
  ∃ cs f, sa_forward c8stage c8xyz (some c8feats) none = .ok (some cs, f) ∧
    cs.length = 1

/-- Claim C5 as stated, instantiated at a concrete mismatched-lengths
construction (2 radii, 1 capacity, 2 transform specs): construction would
fail with a configuration error whose message names the offending stage
index — in particular, a nonempty message. -/
def c5ClaimProp : Prop :=
  ∃ e, pointnetSAModuleMSG_init (some 1) [1, 2] [4] [[2, 3], [2, 3]] true
      "max_pool" = .error e ∧ e.message ≠ ""

/-- Claim C4 as stated, instantiated at a concrete construction with the
unknown pooling method `"bad_pool"`: no stage object would ever be
produced. -/
def c4ClaimProp : Prop :=
  ∀ s, pointnetSAModuleMSG_init (some 2) [1] [4] [[2, 3]] true "bad_pool" ≠ .ok s

/- ------------------------------------------------------------------ -/
/- Theorems.                                                          -/
/- ------------------------------------------------------------------ -/

/-- C6: in FP interpolation, for any 3 nearest-neighbor distances
`d1, d2, d3 ≥ 0` the computed weights `(1/(d_j + 1e-8)) / Σ_k 1/(d_k + 1e-8)`
are each strictly positive (hence ≥ 0 and finite, including at zero
distance) and sum to exactly 1 in the exact arithmetic of the model. -/
theorem C6_fp_interpolation_weights (d1 d2 d3 : ℚ)
    (h1 : 0 ≤ d1) (h2 : 0 ≤ d2) (h3 : 0 ≤ d3) :
    0 < (fpWeights d1 d2 d3).1 ∧ 0 < (fpWeights d1 d2 d3).2.1 ∧
      0 < (fpWeights d1 d2 d3).2.2 ∧
      (fpWeights d1 d2 d3).1 + (fpWeights d1 d2 d3).2.1 +
        (fpWeights d1 d2 d3).2.2 = 1 := by
  have heps : (0 : ℚ) < fpEps := by norm_num [fpEps]
  have hr1 : 0 < fpRecip d1 := one_div_pos.mpr (by linarith)
  have hr2 : 0 < fpRecip d2 := one_div_pos.mpr (by linarith)
  have hr3 : 0 < fpRecip d3 := one_div_pos.mpr (by linarith)
  have hnorm : 0 < fpRecip d1 + fpRecip d2 + fpRecip d3 := by linarith
  simp only [fpWeights]
  refine ⟨div_pos hr1 hnorm, div_pos hr2 hnorm, div_pos hr3 hnorm, ?_⟩
  rw [div_add_div_same, div_add_div_same, div_self (ne_of_gt hnorm)]

/-- Witness for C6 at the concrete distances `(0, 1, 2)` (note the exact
zero distance). -/
theorem C6_fp_interpolation_weights_witness :
    0 < (fpWeights 0 1 2).1 ∧ 0 < (fpWeights 0 1 2).2.1 ∧
      0 < (fpWeights 0 1 2).2.2 ∧
      (fpWeights 0 1 2).1 + (fpWeights 0 1 2).2.1 + (fpWeights 0 1 2).2.2 = 1 :=
  C6_fp_interpolation_weights 0 1 2 le_rfl (by norm_num) (by norm_num)

/-- C10: `SemanticSegmentation.run_test` raises `NameError` on the unbound
name `train_sampler` when it builds the test-split dataloader — under the
name-resolution semantics this is independent of the model, dataset or
configuration values, and since the raise aborts the body it happens before
the test loop (the final statement) can process any example. -/
theorem C10_run_test_raises_name_error :
    runTestExec = .error (.nameError "train_sampler") := by decide

unseal Rat.add Rat.mul Rat.inv Rat.sub in
/-- C5 counterexample: at the concrete mismatched construction (2 radii,
1 capacity, 2 transform specs) the failure is the bare `assert` of
`PointnetSAModuleMSG.__init__` — an `AssertionError` with an empty message
that names no stage index, refuting the claimed "configuration error that
names the offending stage index". -/
theorem C5_counterexample : ¬ c5ClaimProp := by
  intro h
  obtain ⟨e, he, hm⟩ := h
  have hknown : pointnetSAModuleMSG_init (some 1) [1, 2] [4] [[2, 3], [2, 3]]
      true "max_pool" = .error (.assertionError "") := by decide
  rw [hknown] at he
  injection he with he'
  exact hm (by rw [← he']; rfl)

unseal Rat.add Rat.mul Rat.inv Rat.sub in
/-- C4 counterexample: an SA stage with the unknown pooling method
`"bad_pool"` is constructed successfully (the constructor stores the string
without validation), refuting "an SA stage object with an unknown pooling
method can never be successfully constructed". -/
theorem C4_counterexample : ¬ c4ClaimProp := fun h =>
  h (⟨some 2, [.queryAndGroup 1 4 true], [[5, 3]], "bad_pool"⟩, [[5, 3]])
    (by decide)

unseal Rat.add Rat.mul Rat.inv Rat.sub in
/-- C8 counterexample: the concrete global stage called without explicit
centers returns `None` as its centers component (the Python code leaves
`new_xyz = None` when `self.npoint is None`), not a `[1, 3]` coordinate
tensor, refuting the claimed `centers[M, 3]` with `M = 1`. -/
theorem C8_counterexample : ¬ c8ClaimProp := by
  intro h
  obtain ⟨cs, f, hrun, _⟩ := h
  have hknown : sa_forward c8stage c8xyz (some c8feats) none
      = .ok (none, [[8, 8, 8]]) := by decide
  rw [hknown] at hrun
  injection hrun with h'
  exact Option.noConfusion (congrArg Prod.fst h')

unseal Rat.add Rat.mul Rat.inv Rat.sub in
/-- C1 counterexample: on the concrete 3-SA-stage, 1-FP-stage model,
`forward` returns the depth-0 coordinates `c1xyz0` with the untouched raw
input features (channel width 2), while the depth-(L−2) = depth-1 history
coordinates are the different list `c1xyz1`; so the claim's output
coordinates and output width (7) are both wrong. -/
theorem C1_counterexample : ¬ c1ClaimProp := by
  intro h
  obtain ⟨lx, lf, cs, f, hfull, hfwd, hcs, _⟩ := h
  have hknown : pointnet2_forward c1model c1pc
      = .ok (some c1xyz0, some c1rawFeats) := by decide
  rw [hknown] at hfwd
  injection hfwd with h'
  have hcs0 : cs = c1xyz0 := by
    have := congrArg Prod.fst h'
    simpa using this.symm
  have hproj : (pointnet2_forward_full c1model c1pc).map
      (fun h => h.1.getD 1 none) = .ok (some c1xyz1) := by decide
  rw [hfull] at hproj
  injection hproj with h''
  have h3 : lx.getD 1 none = some c1xyz1 := h''
  rw [hcs0, h3] at hcs
  injection hcs with hxy
  exact absurd hxy (by decide)


/-- Unfolding an `Except` bind that succeeded. -/
theorem bindOk {α β : Type} {x : Except PyError α} {f : α → Except PyError β}
    {r : β} (h : (x >>= f) = .ok r) : ∃ a, x = .ok a ∧ f a = .ok r := by
  cases x with
  | error e => simp [Bind.bind, Except.bind] at h
  | ok a => exact ⟨a, rfl, by simpa [Bind.bind, Except.bind] using h⟩

/-- A successful `mapExcept` succeeds pointwise, in order. -/
theorem mapExcept_ok_forall2 {α β : Type} {f : α → Except PyError β} :
    ∀ {l : List α} {r : List β}, mapExcept f l = .ok r →
      List.Forall₂ (fun a b => f a = .ok b) l r := by
  intro l
  induction l with
  | nil =>
    intro r h
    simp only [mapExcept] at h
    injection h with h'
    rw [← h']
    exact .nil
  | cons a as ih =>
    intro r h
    simp only [mapExcept] at h
    obtain ⟨b, hb, h⟩ := bindOk h
    obtain ⟨bs, hbs, h⟩ := bindOk h
    injection h with h'
    rw [← h']
    exact .cons hb (ih hbs)

/-- A successful `mapExcept` preserves the length. -/
theorem mapExcept_ok_length {α β : Type} {f : α → Except PyError β}
    {l : List α} {r : List β} (h : mapExcept f l = .ok r) :
    r.length = l.length :=
  (mapExcept_ok_forall2 h).length_eq.symm

/-- Right-to-left membership extraction from `Forall₂`. -/
theorem forall2_mem_right {α β : Type} {R : α → β → Prop} :
    ∀ {l : List α} {r : List β}, List.Forall₂ R l r → ∀ {b}, b ∈ r →
      ∃ a ∈ l, R a b := by
  intro l r h
  induction h with
  | nil => intro b hb; cases hb
  | cons h₁ _ ih =>
    intro b hb
    rcases List.mem_cons.mp hb with hb | hb
    · exact ⟨_, List.mem_cons_self _ _, hb ▸ h₁⟩
    · obtain ⟨a, ha, hr⟩ := ih hb
      exact ⟨a, List.mem_cons_of_mem _ ha, hr⟩

/-- The ChannelTransform model always emits its declared output width. -/
theorem cnnApply_length {spec : List ℕ} {v w : Feat}
    (h : cnnApply spec v = .ok w) : w.length = spec.getLastD 0 := by
  unfold cnnApply at h
  split at h
  · injection h with h'
    rw [← h']
    exact List.length_replicate _ _
  · cases h

/-- A fold of `zipWith` over equal-length lists keeps the length. -/
theorem foldl_zipWith_length {γ : Type} (f : γ → γ → γ) :
    ∀ (l : List (List γ)) (v : List γ) (n : ℕ), v.length = n →
      (∀ u ∈ l, u.length = n) →
      (l.foldl (fun a b => List.zipWith f a b) v).length = n := by
  intro l
  induction l with
  | nil => intro v n hv _; exact hv
  | cons u us ih =>
    intro v n hv hl
    simp only [List.foldl_cons]
    exact ih _ n
      (by rw [List.length_zipWith, hv, hl u (List.mem_cons_self _ _)]; exact Nat.min_self n)
      (fun w hw => hl w (List.mem_cons_of_mem _ hw))

/-- Max pooling keeps the channel width. -/
theorem pool1max_length {vs : List Feat} {p : Feat} {n : ℕ}
    (hv : ∀ v ∈ vs, v.length = n) (h : pool1max vs = .ok p) : p.length = n := by
  cases vs with
  | nil => cases h
  | cons v rest =>
    injection h with h'
    rw [← h']
    exact foldl_zipWith_length _ rest v n (hv v (List.mem_cons_self _ _))
      (fun u hu => hv u (List.mem_cons_of_mem _ hu))

/-- Average pooling keeps the channel width. -/
theorem pool1avg_length {vs : List Feat} {p : Feat} {n : ℕ}
    (hv : ∀ v ∈ vs, v.length = n) (h : pool1avg vs = .ok p) : p.length = n := by
  cases vs with
  | nil => cases h
  | cons v rest =>
    injection h with h'
    rw [← h']
    rw [List.length_map]
    exact foldl_zipWith_length _ rest v n (hv v (List.mem_cons_self _ _))
      (fun u hu => hv u (List.mem_cons_of_mem _ hu))

/-- Pooling a whole scale keeps the channel width of every row. -/
theorem poolScale_width {pm : String} {t : List (List Feat)} {p : List Feat}
    {n : ℕ} (hv : ∀ row ∈ t, ∀ v ∈ row, v.length = n)
    (h : poolScale pm t = .ok p) : ∀ r ∈ p, r.length = n := by
  intro r hr
  unfold poolScale at h
  split at h
  · obtain ⟨row, hrow, hpool⟩ := forall2_mem_right (mapExcept_ok_forall2 h) hr
    exact pool1max_length (hv row hrow) hpool
  · split at h
    · obtain ⟨row, hrow, hpool⟩ := forall2_mem_right (mapExcept_ok_forall2 h) hr
      exact pool1avg_length (hv row hrow) hpool
    · cases h

/-- Pooling a whole scale keeps the number of centers. -/
theorem poolScale_length {pm : String} {t : List (List Feat)} {p : List Feat}
    (h : poolScale pm t = .ok p) : p.length = t.length := by
  unfold poolScale at h
  split at h
  · exact mapExcept_ok_length h
  · split at h
    · exact mapExcept_ok_length h
    · cases h

/-- A scale's output rows all have the scale's declared transform width. -/
theorem saScale_width {xyz : List Point} {nx : Option (List Point)}
    {feats : Option FeatTensor} {pm : String} {g : Grouper} {spec : List ℕ}
    {t : FeatTensor} (h : saScale xyz nx feats pm (g, spec) = .ok t) :
    ∀ r ∈ t, r.length = spec.getLastD 0 := by
  unfold saScale at h
  obtain ⟨grouped, _, h⟩ := bindOk h
  obtain ⟨transformed, htr, h⟩ := bindOk h
  refine poolScale_width ?_ h
  intro row hrow v hv
  obtain ⟨nbrs, _, hnbrs⟩ := forall2_mem_right (mapExcept_ok_forall2 htr) hrow
  obtain ⟨w, _, hw⟩ := forall2_mem_right (mapExcept_ok_forall2 hnbrs) hv
  exact cnnApply_length hw

/-- A `GroupAll` scale pools the whole set into exactly one output row. -/
theorem saScale_groupAll_rows {xyz : List Point} {nx : Option (List Point)}
    {feats : Option FeatTensor} {pm : String} {u : Bool} {spec : List ℕ}
    {t : FeatTensor} (h : saScale xyz nx feats pm (.groupAll u, spec) = .ok t) :
    t.length = 1 := by
  unfold saScale at h
  obtain ⟨grouped, hg, h⟩ := bindOk h
  obtain ⟨transformed, htr, h⟩ := bindOk h
  have h1 : grouped.length = 1 := by
    unfold grouperRun at hg
    injection hg with hg'
    rw [← hg']
    rfl
  rw [poolScale_length h, mapExcept_ok_length htr, h1]

/-- A `QueryAndGroup` scale crashes when no centers were provided. -/
theorem saScale_queryAndGroup_none {xyz : List Point} {feats : Option FeatTensor}
    {pm : String} {r : ℚ} {ns : ℕ} {u : Bool} {spec : List ℕ} {t : FeatTensor} :
    saScale xyz none feats pm (.queryAndGroup r ns u, spec) ≠ .ok t := by
  intro h
  unfold saScale grouperRun at h
  obtain ⟨grouped, hg, _⟩ := bindOk h
  cases hg

/-- Rows surviving a channel concatenation split into a row of each side. -/
theorem mem_zipWith_append {γ : Type} :
    ∀ {a b : List (List γ)} {row : List γ},
      row ∈ List.zipWith (· ++ ·) a b → ∃ x ∈ a, ∃ y ∈ b, row = x ++ y := by
  intro a
  induction a with
  | nil => intro b row h; cases h
  | cons x xs ih =>
    intro b row h
    cases b with
    | nil => cases h
    | cons y ys =>
      rcases List.mem_cons.mp h with h | h
      · exact ⟨x, List.mem_cons_self _ _, y, List.mem_cons_self _ _, h⟩
      · obtain ⟨x', hx', y', hy', hrow⟩ := ih h
        exact ⟨x', List.mem_cons_of_mem _ hx', y', List.mem_cons_of_mem _ hy', hrow⟩

/-- Folding channel concatenation accumulates the widths. -/
theorem catFold_width :
    ∀ {ws : List ℕ} {ts : List FeatTensor},
      List.Forall₂ (fun w t => ∀ row ∈ t, row.length = w) ws ts →
      ∀ (acc : FeatTensor) (W : ℕ), (∀ row ∈ acc, row.length = W) →
      ∀ row ∈ ts.foldl (fun a b => List.zipWith (· ++ ·) a b) acc,
        row.length = W + ws.sum := by
  intro ws ts h
  induction h with
  | nil => intro acc W hacc row hrow; simpa using hacc row hrow
  | @cons w t ws' ts' hw _ ih =>
    intro acc W hacc row hrow
    simp only [List.foldl_cons] at hrow
    have := ih (List.zipWith (· ++ ·) acc t) (W + w) ?_ row hrow
    · rw [List.sum_cons]
      omega
    · intro r hr
      obtain ⟨x, hx, y, hy, hr'⟩ := mem_zipWith_append hr
      rw [hr', List.length_append, hacc x hx, hw y hy]

/-- `torch.cat(..., dim=1)` sums the per-scale channel widths. -/
theorem catChannels_width {ws : List ℕ} {ts : List FeatTensor} {r : FeatTensor}
    (hf : List.Forall₂ (fun w t => ∀ row ∈ t, row.length = w) ws ts)
    (h : catChannels ts = .ok r) : ∀ row ∈ r, row.length = ws.sum := by
  cases hf with
  | nil => cases h
  | @cons w t ws' ts' hw hrest =>
    simp only [catChannels] at h
    split at h
    · injection h with h'
      rw [← h']
      intro row hrow
      have := catFold_width hrest t w hw row hrow
      rw [List.sum_cons]
      omega
    · cases h

/-- `torch.cat(..., dim=1)` keeps the row count of the first tensor. -/
theorem catChannels_length {t : FeatTensor} {ts : List FeatTensor}
    {r : FeatTensor} (h : catChannels (t :: ts) = .ok r) :
    r.length = t.length := by
  simp only [catChannels] at h
  split at h
  · injection h with h'
    rw [← h']
    apply foldl_zipWith_length
    · rfl
    · intro u hu
      next heq => exact of_decide_eq_true (List.all_eq_true.mp heq u hu)
  · cases h

/-- On success, every output feature row of `_PointnetSAModuleBase.forward`
has channel width `Σ over scales of the scale's declared transform width`. -/
theorem sa_forward_width {m : SAModule} {xyz : List Point}
    {feats : Option FeatTensor} {nxa : Option (List Point)}
    {c : Option (List Point)} {f : FeatTensor}
    (hlen : m.groupers.length = m.mlps.length)
    (h : sa_forward m xyz feats nxa = .ok (c, f)) :
    ∀ r ∈ f, r.length = (m.mlps.map scaleOutWidth).sum := by
  unfold sa_forward at h
  obtain ⟨nx, _, h⟩ := bindOk h
  obtain ⟨pooled, hpool, h⟩ := bindOk h
  obtain ⟨catted, hcat, h⟩ := bindOk h
  injection h with h'
  have hf : f = catted := (congrArg Prod.snd h').symm
  subst hf
  have h2 : List.Forall₂ (fun (p : Grouper × List ℕ) t => ∀ r ∈ t,
      r.length = scaleOutWidth p.2) (m.groupers.zip m.mlps) pooled :=
    (mapExcept_ok_forall2 hpool).imp (fun p t hp => saScale_width hp)
  have h3 : List.Forall₂ (fun w t => ∀ r ∈ t, r.length = w)
      ((m.groupers.zip m.mlps).map (fun p => scaleOutWidth p.2)) pooled :=
    List.forall₂_map_left_iff.mpr h2
  have h4 := catChannels_width h3 hcat
  have h5 : (m.groupers.zip m.mlps).map (fun p => scaleOutWidth p.2)
      = m.mlps.map scaleOutWidth := by
    have := List.map_snd_zip m.groupers m.mlps (le_of_eq hlen.symm)
    calc (m.groupers.zip m.mlps).map (fun p => scaleOutWidth p.2)
        = ((m.groupers.zip m.mlps).map Prod.snd).map scaleOutWidth := by
          rw [List.map_map]; rfl
      _ = m.mlps.map scaleOutWidth := by rw [this]
  rw [← h5]
  exact h4

/-- The constructor loop with `use_xyz=True` rewrites every caller-supplied
scale spec to `head + 3 :: tail`. -/
theorem saInitLoop_mutates {np : Option ℕ} :
    ∀ {rs : List ℚ} {ns : List ℕ} {specs : List (List ℕ)}
      {res : List Grouper × List (List ℕ)},
      saInitLoop np true rs ns specs = .ok res →
      rs.length = ns.length → ns.length = specs.length →
      (∀ s ∈ specs, s ≠ []) →
      res.2 = specs.map (fun s => (s.headD 0 + 3) :: s.tail) := by
  intro rs
  induction rs with
  | nil =>
    intro ns specs res h h1 h2 _
    simp only [List.length_nil] at h1
    have hspecs : specs = [] := List.length_eq_zero.mp (by omega)
    subst hspecs
    simp only [saInitLoop] at h
    injection h with h'
    rw [← h']
    rfl
  | cons r rs' ih =>
    intro ns specs res h h1 h2 hne
    cases ns with
    | nil => cases h1
    | cons n ns' =>
      cases specs with
      | nil => cases h2
      | cons s specs' =>
        simp only [saInitLoop] at h
        obtain ⟨spec', hadj, h⟩ := bindOk h
        obtain ⟨rest, hrest, h⟩ := bindOk h
        injection h with h'
        have hs : s ≠ [] := hne s (List.mem_cons_self _ _)
        have hspec' : spec' = (s.headD 0 + 3) :: s.tail := by
          cases s with
          | nil => exact absurd rfl hs
          | cons a t =>
            simp only [saSpecAdjust, if_pos rfl] at hadj
            injection hadj with h''
            rw [← h'']
            rfl
        have htail := ih hrest (by simpa using h1) (by simpa using h2)
          (fun u hu => hne u (List.mem_cons_of_mem _ hu))
        rw [← h']
        simp only [List.map_cons]
        rw [← hspec', ← htail]

/-- C9: constructing a `PointnetSAModuleMSG` with `use_xyz=True` mutates the
caller-supplied `mlps` argument in place — after construction, every scale's
first entry has been increased by 3 (the written-back transform input-width
adjustment), the tail being unchanged. -/
theorem C9_init_mutates_caller_mlps (np : Option ℕ) (radii : List ℚ)
    (ns : List ℕ) (mlps : List (List ℕ)) (pm : String) (m : SAModule)
    (mlps' : List (List ℕ))
    (hne : ∀ s ∈ mlps, s ≠ [])
    (h : pointnetSAModuleMSG_init np radii ns mlps true pm = .ok (m, mlps')) :
    mlps' = mlps.map (fun s => (s.headD 0 + 3) :: s.tail) := by
  unfold pointnetSAModuleMSG_init at h
  split at h
  · obtain ⟨p, hp, h⟩ := bindOk h
    injection h with h'
    have hm : mlps' = p.2 := (congrArg Prod.snd h').symm
    next hcond =>
      rw [hm]
      exact saInitLoop_mutates hp hcond.1 hcond.2 hne
  · cases h

/-- Witness for C9: the concrete construction with `mlps = [[2, 3]]` leaves
the caller's argument as `[[5, 3]]`. -/
theorem C9_init_mutates_caller_mlps_witness :
    ([[5, 3]] : List (List ℕ)) = [[2, 3]].map (fun s => (s.headD 0 + 3) :: s.tail) :=
  C9_init_mutates_caller_mlps (some 2) [1] [4] [[2, 3]] "max_pool"
    ⟨some 2, [.queryAndGroup 1 4 true], [[5, 3]], "max_pool"⟩ [[5, 3]]
    (by decide) (by decide)

/-- C5 amended: whenever the radii, capacities and transform-spec lists do
not all have equal length, `PointnetSAModuleMSG` construction fails — but
with a bare `AssertionError` carrying an empty message, which names no stage
index; no stage object is produced. -/
theorem C5_amended_mismatch_asserts (np : Option ℕ) (radii : List ℚ)
    (ns : List ℕ) (mlps : List (List ℕ)) (uxyz : Bool) (pm : String)
    (h : ¬(radii.length = ns.length ∧ ns.length = mlps.length)) :
    pointnetSAModuleMSG_init np radii ns mlps uxyz pm
      = .error (.assertionError "") := by
  unfold pointnetSAModuleMSG_init
  rw [if_neg h]

/-- Witness for the amended C5 at a concrete mismatched configuration. -/
theorem C5_amended_mismatch_asserts_witness :
    pointnetSAModuleMSG_init none [1] [2, 3] [[4]] false "avg_pool"
      = .error (.assertionError "") :=
  C5_amended_mismatch_asserts none [1] [2, 3] [[4]] false "avg_pool" (by decide)

/-- The constructor loop succeeds whenever the lists line up (and, with
`use_xyz`, no scale spec is empty). -/
theorem saInitLoop_ok (np : Option ℕ) (u : Bool) :
    ∀ {rs : List ℚ} {ns : List ℕ} {specs : List (List ℕ)},
      rs.length = ns.length → ns.length = specs.length →
      (u = true → ∀ s ∈ specs, s ≠ []) →
      ∃ res, saInitLoop np u rs ns specs = .ok res := by
  intro rs
  induction rs with
  | nil => intro ns specs _ _ _; exact ⟨([], []), rfl⟩
  | cons r rs' ih =>
    intro ns specs h1 h2 hne
    cases ns with
    | nil => cases h1
    | cons n ns' =>
      cases specs with
      | nil => cases h2
      | cons s specs' =>
        obtain ⟨rest, hrest⟩ := @ih ns' specs'
          (by simpa using h1) (by simpa using h2)
          (fun hu t ht => hne hu t (List.mem_cons_of_mem _ ht))
        have hadj : ∃ s', saSpecAdjust u s = .ok s' := by
          unfold saSpecAdjust
          cases u with
          | false => exact ⟨s, rfl⟩
          | true =>
            cases s with
            | nil => exact absurd rfl (hne rfl [] (List.mem_cons_self _ _))
            | cons a t => exact ⟨(a + 3) :: t, rfl⟩
        obtain ⟨s', hs'⟩ := hadj
        refine ⟨(grouperFor np r n u :: rest.1, s' :: rest.2), ?_⟩
        simp only [saInitLoop]
        rw [hs']
        simp only [Bind.bind, Except.bind]
        rw [hrest]

/-- The pooling dispatch never accepts an unknown method: it raises
`NotImplementedError`. -/
theorem poolScale_unknown (pm : String) (t : List (List Feat))
    (h1 : pm ≠ "max_pool") (h2 : pm ≠ "avg_pool") :
    poolScale pm t = .error .notImplementedError := by
  unfold poolScale
  rw [if_neg h1, if_neg h2]

/-- A scale under an unknown pooling method can never produce a result. -/
theorem saScale_unknown_never_ok {xyz : List Point} {nx : Option (List Point)}
    {feats : Option FeatTensor} {pm : String} {gs : Grouper × List ℕ}
    {t : FeatTensor} (h1 : pm ≠ "max_pool") (h2 : pm ≠ "avg_pool") :
    saScale xyz nx feats pm gs ≠ .ok t := by
  intro h
  unfold saScale at h
  obtain ⟨g, _, h⟩ := bindOk h
  obtain ⟨tr, _, h⟩ := bindOk h
  rw [poolScale_unknown pm tr h1 h2] at h
  cases h

/-- A forward call on a stage whose pooling method is unknown never returns
a result: with at least one scale the pooling dispatch raises
`NotImplementedError` (or an earlier phase raised), and with no scale the
empty `torch.cat` raises. -/
theorem sa_forward_unknown_pool_never_ok {m : SAModule} {xyz : List Point}
    {feats : Option FeatTensor} {nxa : Option (List Point)}
    {out : Option (List Point) × FeatTensor}
    (h1 : m.pool_method ≠ "max_pool") (h2 : m.pool_method ≠ "avg_pool") :
    sa_forward m xyz feats nxa ≠ .ok out := by
  intro h
  unfold sa_forward at h
  obtain ⟨nx, _, h⟩ := bindOk h
  obtain ⟨pooled, hpool, h⟩ := bindOk h
  obtain ⟨catted, hcat, _⟩ := bindOk h
  cases hzip : m.groupers.zip m.mlps with
  | nil =>
    rw [hzip] at hpool
    simp only [mapExcept] at hpool
    injection hpool with h'
    rw [← h'] at hcat
    cases hcat
  | cons p rest =>
    rw [hzip] at hpool
    simp only [mapExcept] at hpool
    obtain ⟨b, hb, _⟩ := bindOk hpool
    exact saScale_unknown_never_ok h1 h2 hb

/-- C4 amended: an SA stage with a pooling method outside
`{max_pool, avg_pool}` is constructed successfully — the constructor stores
the string without validation — and the failure is deferred to forward time:
the pooling dispatch raises `NotImplementedError`, so no forward call on the
stage ever returns a result. -/
theorem C4_amended_pool_check_deferred (np : Option ℕ) (radii : List ℚ)
    (ns : List ℕ) (mlps : List (List ℕ)) (uxyz : Bool) (pm : String)
    (hlen1 : radii.length = ns.length) (hlen2 : ns.length = mlps.length)
    (hne : uxyz = true → ∀ s ∈ mlps, s ≠ [])
    (h1 : pm ≠ "max_pool") (h2 : pm ≠ "avg_pool") :
    (∃ res, pointnetSAModuleMSG_init np radii ns mlps uxyz pm = .ok res) ∧
      (∀ t, poolScale pm t = .error .notImplementedError) ∧
      ∀ m mlps', pointnetSAModuleMSG_init np radii ns mlps uxyz pm
          = .ok (m, mlps') →
        ∀ xyz feats nxa out, sa_forward m xyz feats nxa ≠ .ok out := by
  refine ⟨?_, fun t => poolScale_unknown pm t h1 h2, ?_⟩
  · obtain ⟨res, hres⟩ := saInitLoop_ok np uxyz hlen1 hlen2 hne
    refine ⟨(⟨np, res.1, res.2, pm⟩, res.2), ?_⟩
    unfold pointnetSAModuleMSG_init
    rw [if_pos ⟨hlen1, hlen2⟩]
    simp only [Bind.bind, Except.bind]
    rw [hres]
  · intro m mlps' hinit xyz feats nxa out
    have hpm : m.pool_method = pm := by
      unfold pointnetSAModuleMSG_init at hinit
      rw [if_pos ⟨hlen1, hlen2⟩] at hinit
      obtain ⟨p, _, hinit⟩ := bindOk hinit
      injection hinit with h'
      have : m = ⟨np, p.1, p.2, pm⟩ := (congrArg Prod.fst h').symm
      rw [this]
    exact sa_forward_unknown_pool_never_ok (hpm ▸ h1) (hpm ▸ h2)

/-- Witness for the amended C4 at the concrete `"bad_pool"` construction. -/
theorem C4_amended_pool_check_deferred_witness :
    (∃ res, pointnetSAModuleMSG_init (some 2) [1] [4] [[2, 3]] true "bad_pool"
        = .ok res) ∧
      (∀ t, poolScale "bad_pool" t = .error .notImplementedError) ∧
      ∀ m mlps', pointnetSAModuleMSG_init (some 2) [1] [4] [[2, 3]] true
          "bad_pool" = .ok (m, mlps') →
        ∀ xyz feats nxa out, sa_forward m xyz feats nxa ≠ .ok out :=
  C4_amended_pool_check_deferred (some 2) [1] [4] [[2, 3]] true "bad_pool"
    (by decide) (by decide) (fun _ => by decide) (by decide) (by decide)

/-- `pyMax` is the two-sided upper bound. -/
theorem le_pyMax_left (a b : ℚ) : a ≤ pyMax a b := by
  unfold pyMax
  split
  · assumption
  · exact le_refl a

/-- `pyMax` dominates its right argument too. -/
theorem le_pyMax_right (a b : ℚ) : b ≤ pyMax a b := by
  unfold pyMax
  split
  · exact le_refl b
  · exact le_of_lt (lt_of_not_le (by assumption))

/-- `pyMax` keeps the left argument when it already dominates. -/
theorem pyMax_eq_left {a b : ℚ} (h : b ≤ a) : pyMax a b = a := by
  unfold pyMax
  split
  · exact le_antisymm h (by assumption)
  · rfl

/-- `getD` through `zipWith` at an in-range index. -/
theorem zipWith_getD (f : ℚ → ℚ → ℚ) :
    ∀ (a b : List ℚ) (i : ℕ), i < a.length → i < b.length →
      (List.zipWith f a b).getD i 0 = f (a.getD i 0) (b.getD i 0) := by
  intro a
  induction a with
  | nil => intro b i h _; cases h
  | cons x xs ih =>
    intro b i h1 h2
    cases b with
    | nil => cases h2
    | cons y ys =>
      cases i with
      | zero => rfl
      | succ i' =>
        simp only [List.zipWith_cons_cons, List.getD_cons_succ]
        exact ih ys i' (by simpa using h1) (by simpa using h2)

/-- Elementwise maximum absorbs a pointwise-dominated vector. -/
theorem zipWith_pyMax_absorb :
    ∀ (m p : List ℚ), m.length = p.length →
      (∀ i, i < m.length → p.getD i 0 ≤ m.getD i 0) →
      List.zipWith pyMax m p = m := by
  intro m
  induction m with
  | nil => intro p _ _; rfl
  | cons a m' ih =>
    intro p hlen hdom
    cases p with
    | nil => cases hlen
    | cons b p' =>
      have h0 : b ≤ a := by simpa using hdom 0 (Nat.zero_lt_succ _)
      simp only [List.zipWith_cons_cons]
      rw [pyMax_eq_left h0,
        ih p' (by simpa using hlen) (fun i hi => hdom (i + 1) (by simpa using hi))]

/-- Every pooled vector of the max fold dominates every participating
neighbor vector, channel by channel. -/
theorem foldl_pyMax_dominates :
    ∀ (rest : List Feat) (v : Feat) (W : ℕ), v.length = W →
      (∀ u ∈ rest, u.length = W) →
      ∀ p ∈ v :: rest, ∀ i, i < W →
        p.getD i 0 ≤ (rest.foldl (fun a b => List.zipWith pyMax a b) v).getD i 0 := by
  intro rest
  induction rest with
  | nil =>
    intro v W _ _ p hp i _
    rcases List.mem_cons.mp hp with h | h
    · subst h; exact le_refl _
    · cases h
  | cons b rest' ih =>
    intro v W hv hrest p hp i hi
    have hb : b.length = W := hrest b (List.mem_cons_self _ _)
    have hv' : (List.zipWith pyMax v b).length = W := by
      rw [List.length_zipWith, hv, hb]; exact Nat.min_self W
    have hrest' : ∀ u ∈ rest', u.length = W :=
      fun u hu => hrest u (List.mem_cons_of_mem _ hu)
    have hzip : ∀ q ∈ [v, b], q.getD i 0 ≤ (List.zipWith pyMax v b).getD i 0 := by
      intro q hq
      rw [zipWith_getD pyMax v b i (hv ▸ hi) (hb ▸ hi)]
      rcases List.mem_cons.mp hq with h | h
      · rw [h]; exact le_pyMax_left _ _
      · rcases List.mem_cons.mp h with h' | h'
        · rw [h']; exact le_pyMax_right _ _
        · cases h'
    simp only [List.foldl_cons]
    rcases List.mem_cons.mp hp with h | h
    · exact le_trans (h ▸ hzip v (List.mem_cons_self _ _))
        (ih (List.zipWith pyMax v b) W hv' hrest' _ (List.mem_cons_self _ _) i hi)
    · rcases List.mem_cons.mp h with h' | h'
      · exact le_trans (h' ▸ hzip b (List.mem_cons_of_mem _ (List.mem_cons_self _ _)))
          (ih (List.zipWith pyMax v b) W hv' hrest' _ (List.mem_cons_self _ _) i hi)
      · exact ih (List.zipWith pyMax v b) W hv' hrest' p
          (List.mem_cons_of_mem _ h') i hi

/-- C7: max pooling over a neighbor axis padded with duplicates of values
already present equals max pooling over the true neighbor subset — the
elementwise maximum (`pool1max`, the `max_pool` branch of the SA forward) is
invariant under appending vectors that are already in the pooled list.  (No
such invariance holds for `pool1avg`; the claim accepts that bias.) -/
theorem C7_maxpool_duplicate_padding_invariant (v : Feat) (rest pad : List Feat)
    (W : ℕ) (hw : ∀ u ∈ v :: rest, u.length = W)
    (hpad : ∀ p ∈ pad, p ∈ v :: rest) :
    pool1max ((v :: rest) ++ pad) = pool1max (v :: rest) := by
  have hM : ∀ pads : List Feat, (∀ p ∈ pads, p ∈ v :: rest) →
      pads.foldl (fun a b => List.zipWith pyMax a b)
          (rest.foldl (fun a b => List.zipWith pyMax a b) v)
        = rest.foldl (fun a b => List.zipWith pyMax a b) v := by
    intro pads
    induction pads with
    | nil => intro _; rfl
    | cons p pads' ih =>
      intro hin
      have hv : v.length = W := hw v (List.mem_cons_self _ _)
      have hrest : ∀ u ∈ rest, u.length = W :=
        fun u hu => hw u (List.mem_cons_of_mem _ hu)
      have habs : List.zipWith pyMax
          (rest.foldl (fun a b => List.zipWith pyMax a b) v) p
          = rest.foldl (fun a b => List.zipWith pyMax a b) v := by
        apply zipWith_pyMax_absorb
        · rw [foldl_zipWith_length pyMax rest v W hv hrest,
            hw p (hin p (List.mem_cons_self _ _))]
        · intro i hi
          rw [foldl_zipWith_length pyMax rest v W hv hrest] at hi
          exact foldl_pyMax_dominates rest v W hv hrest p
            (hin p (List.mem_cons_self _ _)) i hi
      simp only [List.foldl_cons]
      rw [habs]
      exact ih (fun q hq => hin q (List.mem_cons_of_mem _ hq))
  simp only [List.cons_append, pool1max, List.foldl_append]
  rw [hM pad hpad]

/-- Witness for C7 at a concrete neighborhood with two true neighbors and
three padded duplicates. -/
theorem C7_maxpool_duplicate_padding_invariant_witness :
    pool1max ([[1, 2], [3, 1]] ++ [[1, 2], [3, 1], [1, 2]])
      = pool1max [[1, 2], [3, 1]] :=
  C7_maxpool_duplicate_padding_invariant [1, 2] [[3, 1]]
    [[1, 2], [3, 1], [1, 2]] 2 (by decide) (by decide)

/-- `pyMax` agrees with the lattice `max` on ℚ. -/
theorem pyMax_eq_max (a b : ℚ) : pyMax a b = max a b := (max_def a b).symm

/-- `pyMin` agrees with the lattice `min` on ℚ. -/
theorem pyMin_eq_min (a b : ℚ) : pyMin a b = min a b := (min_def a b).symm

/-- C8 amended: a global SA stage (`npoint=None`) called without explicit
centers returns `None` in place of a centers tensor — the Python code never
materializes centers for a global stage — together with the pooled features
of the whole input set: exactly `M = 1` output row of width `Σ_k width_k`. -/
theorem C8_amended_global_stage (m : SAModule) (xyz : List Point)
    (feats : Option FeatTensor) (c : Option (List Point)) (f : FeatTensor)
    (hg : m.npoint = none)
    (hlen : m.groupers.length = m.mlps.length)
    (h : sa_forward m xyz feats none = .ok (c, f)) :
    c = none ∧ f.length = 1 ∧
      ∀ r ∈ f, r.length = (m.mlps.map scaleOutWidth).sum := by
  have hwidth := sa_forward_width hlen h
  unfold sa_forward at h
  obtain ⟨nx, hnx, h⟩ := bindOk h
  have hnone : nx = none := by
    rw [hg] at hnx
    simp only [saNewXyz] at hnx
    injection hnx with h'
    exact h'.symm
  obtain ⟨pooled, hpool, h⟩ := bindOk h
  obtain ⟨catted, hcat, h⟩ := bindOk h
  injection h with h'
  have hc : c = nx := (congrArg Prod.fst h').symm
  have hf : f = catted := (congrArg Prod.snd h').symm
  refine ⟨hc.trans hnone, ?_, hf ▸ hwidth⟩
  have hrows : List.Forall₂ (fun (_ : Grouper × List ℕ) t => t.length = 1)
      (m.groupers.zip m.mlps) pooled := by
    refine (mapExcept_ok_forall2 hpool).imp ?_
    intro p t hp
    obtain ⟨g, spec⟩ := p
    cases g with
    | queryAndGroup r ns u =>
      rw [hnone] at hp
      exact absurd hp saScale_queryAndGroup_none
    | groupAll u => exact saScale_groupAll_rows hp
  cases pooled with
  | nil => cases hcat
  | cons t trest =>
    obtain ⟨p, _, h1⟩ := forall2_mem_right hrows (List.mem_cons_self t trest)
    rw [hf, catChannels_length hcat, h1]

unseal Rat.add Rat.mul Rat.inv Rat.sub in
/-- Witness for the amended C8 at the concrete global stage: centers `None`,
one pooled row of width 3. -/
theorem C8_amended_global_stage_witness :
    (none : Option (List Point)) = none ∧
      ([[8, 8, 8]] : FeatTensor).length = 1 ∧
      ∀ r ∈ ([[8, 8, 8]] : FeatTensor),
        r.length = (c8stage.mlps.map scaleOutWidth).sum :=
  C8_amended_global_stage c8stage c8xyz (some c8feats) none [[8, 8, 8]]
    rfl rfl (by decide)

/-- The SA loop of `forward` produces histories one longer than the module
stack, headed by the input pair. -/
theorem saLoop_shape :
    ∀ {mods : List SAModule} {x : Option (List Point)} {f : Option FeatTensor}
      {lx : List (Option (List Point))} {lf : List (Option FeatTensor)},
      saLoop mods x f = .ok (lx, lf) →
      lx.length = mods.length + 1 ∧ lf.length = mods.length + 1 ∧
        ∃ lx' lf', lx = x :: lx' ∧ lf = f :: lf' := by
  intro mods
  induction mods with
  | nil =>
    intro x f lx lf h
    simp only [saLoop] at h
    injection h with h'
    have h1 : lx = [x] := (congrArg Prod.fst h').symm
    have h2 : lf = [f] := (congrArg Prod.snd h').symm
    exact ⟨by rw [h1]; rfl, by rw [h2]; rfl, [], [], h1, h2⟩
  | cons m ms ih =>
    intro x f lx lf h
    simp only [saLoop] at h
    obtain ⟨xyz, _, h⟩ := bindOk h
    obtain ⟨step, _, h⟩ := bindOk h
    obtain ⟨rest, hrest, h⟩ := bindOk h
    injection h with h'
    have h1 : lx = x :: rest.1 := (congrArg Prod.fst h').symm
    have h2 : lf = f :: rest.2 := (congrArg Prod.snd h').symm
    obtain ⟨hl1, hl2, _⟩ := ih hrest
    exact ⟨by rw [h1]; simpa using hl1, by rw [h2]; simpa using hl2,
      rest.1, rest.2, h1, h2⟩

/-- Unfolding one successful FP loop iteration. -/
theorem fpStep_spec {FPs : List FPModule} {lx : List (Option (List Point))}
    {lf lf' : List (Option FeatTensor)} {j : ℕ}
    (h : fpStep FPs lx lf j = .ok lf') :
    ∃ fpm xu xk fu fk out,
      pyGetNeg FPs j = .ok fpm ∧ pyGetNeg lx (j + 1) = .ok xu ∧
      pyGetNeg lx j = .ok xk ∧ pyGetNeg lf (j + 1) = .ok fu ∧
      pyGetNeg lf j = .ok fk ∧ fp_forward fpm xu xk fu fk = .ok out ∧
      lf' = lf.set (lf.length - (j + 1)) (some out) := by
  unfold fpStep at h
  obtain ⟨fpm, h1, h⟩ := bindOk h
  obtain ⟨xu, h2, h⟩ := bindOk h
  obtain ⟨xk, h3, h⟩ := bindOk h
  obtain ⟨fu, h4, h⟩ := bindOk h
  obtain ⟨fk, h5, h⟩ := bindOk h
  obtain ⟨out, h6, h⟩ := bindOk h
  injection h with h'
  exact ⟨fpm, xu, xk, fu, fk, out, h1, h2, h3, h4, h5, h6, h'.symm⟩

/-- The FP loop never changes the history length. -/
theorem runFP_length {FPs : List FPModule} {lx : List (Option (List Point))} :
    ∀ {steps : List ℕ} {lf res : List (Option FeatTensor)},
      runFP FPs lx lf steps = .ok res → res.length = lf.length := by
  intro steps
  induction steps with
  | nil =>
    intro lf res h
    simp only [runFP] at h
    injection h with h'
    rw [h']
  | cons j js ih =>
    intro lf res h
    simp only [runFP] at h
    obtain ⟨lf1, h1, h⟩ := bindOk h
    obtain ⟨_, _, _, _, _, _, _, _, _, _, _, _, hset⟩ := fpStep_spec h1
    rw [ih h, hset, List.length_set]

/-- Splitting the FP loop at an intermediate point. -/
theorem runFP_append {FPs : List FPModule} {lx : List (Option (List Point))} :
    ∀ {s1 s2 : List ℕ} {lf res : List (Option FeatTensor)},
      runFP FPs lx lf (s1 ++ s2) = .ok res →
      ∃ mid, runFP FPs lx lf s1 = .ok mid ∧ runFP FPs lx mid s2 = .ok res := by
  intro s1
  induction s1 with
  | nil => intro s2 lf res h; exact ⟨lf, rfl, h⟩
  | cons j js ih =>
    intro s2 lf res h
    simp only [List.cons_append, runFP] at h
    obtain ⟨lf1, h1, h⟩ := bindOk h
    obtain ⟨mid, hm1, hm2⟩ := ih h
    refine ⟨mid, ?_, hm2⟩
    simp only [runFP, Bind.bind, Except.bind]
    rw [h1]
    exact hm1

/-- Every row an FP stage emits has the stage's declared output width. -/
theorem fp_forward_width {m : FPModule} {u k : Option (List Point)}
    {uf kf : Option FeatTensor} {out : FeatTensor}
    (h : fp_forward m u k uf kf = .ok out) :
    ∀ r ∈ out, r.length = m.mlp.getLastD 0 := by
  unfold fp_forward at h
  obtain ⟨u', _, h⟩ := bindOk h
  obtain ⟨kf', _, h⟩ := bindOk h
  obtain ⟨interp, _, h⟩ := bindOk h
  obtain ⟨nf, _, h⟩ := bindOk h
  intro r hr
  obtain ⟨v, _, hv⟩ := forall2_mem_right (mapExcept_ok_forall2 h) hr
  exact cnnApply_length hv

/-- `getLastD` skips the head of a list with a nonempty tail. -/
theorem getLastD_cons_ne (a d : ℕ) {l : List ℕ} (h : l ≠ []) :
    (a :: l).getLastD d = l.getLastD d := by
  cases l with
  | nil => exact absurd rfl h
  | cons b t =>
    rw [List.getLastD_eq_getLast?, List.getLastD_eq_getLast?,
      List.getLast?_cons_cons]

/-- The SA construction loop builds one module and one skip entry per
configured stage. -/
theorem p2SALoop_length {u : Bool} :
    ∀ {nps : List (Option ℕ)} {rads : List (List ℚ)} {nss : List (List ℕ)}
      {mls : List (List (List ℕ))} {inC : ℕ}
      {res : List SAModule × List ℕ × Option ℕ},
      p2SALoop u nps rads nss mls inC = .ok res →
      res.1.length = nps.length ∧ res.2.1.length = nps.length := by
  intro nps
  induction nps with
  | nil =>
    intro rads nss mls inC res h
    simp only [p2SALoop] at h
    injection h with h'
    rw [← h']
    exact ⟨rfl, rfl⟩
  | cons np nps' ih =>
    intro rads nss mls inC res h
    cases rads with
    | nil => cases h
    | cons rad rads' =>
      cases nss with
      | nil => cases h
      | cons nsmp nss' =>
        cases mls with
        | nil => cases h
        | cons ml mls' =>
          simp only [p2SALoop] at h
          obtain ⟨stage, _, h⟩ := bindOk h
          obtain ⟨rest, hrest, h⟩ := bindOk h
          injection h with h'
          obtain ⟨hl1, hl2⟩ := ih hrest
          constructor
          · rw [← h']; simpa using hl1
          · rw [← h']; simpa using hl2

/-- Unfolding a successful orchestrator construction. -/
theorem pointnet2MSG_init_parts {inC : ℕ} {u : Bool} {nps : List (Option ℕ)}
    {rads : List (List ℚ)} {nss : List (List ℕ)} {mls : List (List (List ℕ))}
    {fpm : List (List ℕ)} {model : Pointnet2MSG}
    (h : pointnet2MSG_init inC u nps rads nss mls fpm = .ok model) :
    ∃ sa, p2SALoop u nps rads nss mls inC = .ok sa ∧
      model.SA_modules = sa.1 ∧ model.skip_channel_list = inC :: sa.2.1 ∧
      mapExcept (p2FPLoop fpm (inC :: sa.2.1) sa.2.2) (List.range fpm.length)
        = .ok model.FP_modules := by
  unfold pointnet2MSG_init at h
  obtain ⟨sa, hsa, h⟩ := bindOk h
  obtain ⟨fps, hfps, h⟩ := bindOk h
  injection h with h'
  refine ⟨sa, hsa, ?_, ?_, ?_⟩
  · rw [← h']
  · rw [← h']
  · rw [← h']
    exact hfps

/-- The FP loop's step sequence grows at the deep end. -/
theorem fpSteps_succ (n : ℕ) : fpSteps (n + 1) = fpSteps n ++ [n + 1] := by
  unfold fpSteps
  rw [List.range_succ, List.map_append]
  rfl

/-- Setting the head of a nonempty list replaces its `headD`. -/
theorem headD_set_zero {α : Type} (l : List α) (x d : α) (h : l ≠ []) :
    (l.set 0 x).headD d = x := by
  cases l with
  | nil => exact absurd rfl h
  | cons a t => rfl

/-- FP module 0 of a successful construction: its transform spec is
`(pre_channel + in_channels) :: fp_mlps[0]`. -/
theorem fp_module_zero {fpm : List (List ℕ)} {skip : List ℕ} {outc : Option ℕ}
    {FPs : List FPModule} {f0 : List ℕ}
    (hfps : mapExcept (p2FPLoop fpm skip outc) (List.range fpm.length)
      = .ok FPs)
    (hf0 : fpm.get? 0 = some f0) :
    ∃ fp0 pre sk, FPs.get? 0 = some fp0 ∧ pyGet skip 0 = .ok sk ∧
      fp0.mlp = (pre + sk) :: f0 := by
  have hK : 0 < fpm.length := by
    cases fpm with
    | nil => cases hf0
    | cons a l => exact Nat.zero_lt_succ _
  have hforall := mapExcept_ok_forall2 hfps
  have hlen := hforall.length_eq
  rw [List.length_range] at hlen
  have h0 : (List.range fpm.length).get ⟨0, by rw [List.length_range]; exact hK⟩
      = 0 := by
    rw [List.get_eq_getElem, List.getElem_range]
  have hget := (List.forall₂_iff_get.mp hforall).2 0
    (by rw [List.length_range]; exact hK) (by omega)
  rw [h0] at hget
  obtain ⟨pre, hpre, hget⟩ := bindOk hget
  obtain ⟨sk, hsk, hget⟩ := bindOk hget
  obtain ⟨fpi, hfpi, hget⟩ := bindOk hget
  have hfpi0 : fpi = f0 := by
    unfold pyGet at hfpi
    rw [hf0] at hfpi
    injection hfpi with h'
    exact h'.symm
  injection hget with h'
  refine ⟨FPs.get ⟨0, by omega⟩, pre, sk, ?_, hsk, ?_⟩
  · rw [List.get?_eq_get]
  · rw [← h', hfpi0]

/-- C2: when the number of configured FP stages equals the number of SA
stages, a successful forward pass returns exactly the depth-0 input
coordinates — one row per input point, in the original order (they are the
first-3-column split of the input, unpermuted) — paired with a feature
tensor produced by the shallowest (index-0) FP stage, every row of which has
that stage's configured final transform width. -/
theorem C2_full_decoder_output (inC : ℕ) (uxyz : Bool) (nps : List (Option ℕ))
    (rads : List (List ℚ)) (nss : List (List ℕ)) (mls : List (List (List ℕ)))
    (fpm : List (List ℕ)) (f0 : List ℕ) (model : Pointnet2MSG)
    (pc : List (List ℚ))
    (hinit : pointnet2MSG_init inC uxyz nps rads nss mls fpm = .ok model)
    (heq : fpm.length = nps.length)
    (hf0 : fpm.get? 0 = some f0) (hf0ne : f0 ≠ [])
    (hok : pyOk (pointnet2_forward_full model pc) = true) :
    ∃ f, pointnet2_forward model pc = .ok (some (breakUpPc pc).1, some f) ∧
      (breakUpPc pc).1.length = pc.length ∧
      ∀ r ∈ f, r.length = f0.getLastD 0 := by
  obtain ⟨sa, hsa, hSAmod, _, hfps⟩ := pointnet2MSG_init_parts hinit
  have hKpos : 0 < fpm.length := by
    cases fpm with
    | nil => cases hf0
    | cons a l => exact Nat.zero_lt_succ _
  have hfplen : model.FP_modules.length = fpm.length := by
    have := mapExcept_ok_length hfps
    rw [List.length_range] at this
    exact this
  have hsalen : model.SA_modules.length = nps.length := by
    rw [hSAmod]
    exact (p2SALoop_length hsa).1
  cases hfull : pointnet2_forward_full model pc with
  | error e => rw [hfull] at hok; simp [pyOk] at hok
  | ok hist =>
    have horig := hfull
    unfold pointnet2_forward_full at hfull
    obtain ⟨hist0, hloop, hfull⟩ := bindOk hfull
    obtain ⟨lfin, hrun, hpair⟩ := bindOk hfull
    obtain ⟨hlx, hlf, lx', lf', hlx', _⟩ := saLoop_shape hloop
    have hK : model.FP_modules.length = model.SA_modules.length := by
      rw [hfplen, hsalen, heq]
    obtain ⟨K', hK'⟩ : ∃ K', model.FP_modules.length = K' + 1 :=
      ⟨fpm.length - 1, by omega⟩
    have hrun' := hrun
    rw [hK', fpSteps_succ] at hrun'
    obtain ⟨mid, hmid, hlast⟩ := runFP_append hrun'
    simp only [runFP] at hlast
    obtain ⟨lfK, hstep, hlast⟩ := bindOk hlast
    injection hlast with hlast'
    obtain ⟨fpm0, xu, xk, fu, fk, out, hg1, _, _, _, _, hfwd, hset⟩ :=
      fpStep_spec hstep
    have hmidlen : mid.length = hist0.2.length := runFP_length hmid
    have hmidK : mid.length = K' + 2 := by
      rw [hmidlen, hlf]
      omega
    have hidx : mid.length - (K' + 1 + 1) = 0 := by omega
    obtain ⟨fp0, pre, sk, hfp0, _, hfp0mlp⟩ := fp_module_zero hfps hf0
    have hg1' : pyGetNeg model.FP_modules (K' + 1) = .ok fp0 := by
      unfold pyGetNeg
      rw [if_pos ⟨by omega, by omega⟩]
      unfold pyGet
      rw [hK']
      simp only [Nat.sub_self]
      rw [hfp0]
    have hfpm0 : fpm0 = fp0 := by
      rw [hg1'] at hg1
      injection hg1 with h'
      exact h'.symm
    have hlfin : lfin = mid.set 0 (some out) := by
      rw [← hlast', hset, hidx]
    have hmidne : mid ≠ [] := by
      intro hm
      rw [hm] at hmidK
      cases hmidK
    injection hpair with hpair'
    have hfull2 : pointnet2_forward_full model pc = .ok (hist0.1, lfin) := by
      rw [horig, ← hpair']
    refine ⟨out, ?_, by simp [breakUpPc], ?_⟩
    · unfold pointnet2_forward
      rw [hfull2]
      simp only [Except.map]
      rw [hlx', hlfin, headD_set_zero _ _ _ hmidne]
      rfl
    · intro r hr
      have := fp_forward_width hfwd r hr
      rw [hfpm0, hfp0mlp] at this
      rw [this]
      exact getLastD_cons_ne _ _ hf0ne

unseal Rat.add Rat.mul Rat.inv Rat.sub in
/-- Witness for C2: the concrete 3-SA / 3-FP model on a 5-point input. -/
theorem C2_full_decoder_output_witness :
    ∃ f, pointnet2_forward c2model c2pc = .ok (some (breakUpPc c2pc).1, some f) ∧
      (breakUpPc c2pc).1.length = c2pc.length ∧
      ∀ r ∈ f, r.length = ([6] : List ℕ).getLastD 0 :=
  C2_full_decoder_output 2 true [some 4, some 3, some 3] [[100], [100], [100]]
    [[2], [2], [2]] [[[3]], [[2]], [[4]]] [[6], [5], [4]] [6] c2model c2pc
    (by decide) (by decide) (by decide) (by decide) (by decide)

/-- C1 amended: for a model with 3 SA stages and exactly 1 configured FP
stage, a successful forward pass returns the depth-0 coordinates together
with the untouched depth-0 feature slot (the raw input features, not an FP
output); the single FP stage overwrites only the depth-(L−1) = depth-2
feature slot of the history — whose rows do have the stage's configured
transform output width — and every deeper slot (depth 3) keeps its raw
encoder output, the coordinate history being untouched entirely. -/
theorem C1_amended_partial_decoder (inC : ℕ) (uxyz : Bool)
    (nps : List (Option ℕ)) (rads : List (List ℚ)) (nss : List (List ℕ))
    (mls : List (List (List ℕ))) (f0 : List ℕ) (model : Pointnet2MSG)
    (pc : List (List ℚ))
    (hinit : pointnet2MSG_init inC uxyz nps rads nss mls [f0] = .ok model)
    (hL : nps.length = 3) (hf0ne : f0 ≠ [])
    (hok : pyOk (pointnet2_forward_full model pc) = true) :
    ∃ sa_hist out,
      saLoop model.SA_modules (some (breakUpPc pc).1) (breakUpPc pc).2
          = .ok sa_hist ∧
      pointnet2_forward_full model pc
          = .ok (sa_hist.1, sa_hist.2.set 2 (some out)) ∧
      pointnet2_forward model pc = .ok (some (breakUpPc pc).1, (breakUpPc pc).2) ∧
      ∀ r ∈ out, r.length = f0.getLastD 0 := by
  obtain ⟨sa, hsa, hSAmod, _, hfps⟩ := pointnet2MSG_init_parts hinit
  have hfplen : model.FP_modules.length = 1 := by
    have := mapExcept_ok_length hfps
    rw [List.length_range] at this
    exact this
  have hsalen : model.SA_modules.length = 3 := by
    rw [hSAmod, (p2SALoop_length hsa).1, hL]
  cases hfull : pointnet2_forward_full model pc with
  | error e => rw [hfull] at hok; simp [pyOk] at hok
  | ok hist =>
    have horig := hfull
    unfold pointnet2_forward_full at hfull
    obtain ⟨hist0, hloop, hfull⟩ := bindOk hfull
    obtain ⟨lfin, hrun, hpair⟩ := bindOk hfull
    obtain ⟨hlx, hlf, lx', lf', hlx', hlf'⟩ := saLoop_shape hloop
    have hrun' := hrun
    rw [hfplen] at hrun'
    have hsteps : fpSteps 1 = [1] := rfl
    rw [hsteps] at hrun'
    simp only [runFP] at hrun'
    obtain ⟨lfK, hstep, hlast⟩ := bindOk hrun'
    injection hlast with hlast'
    obtain ⟨fpm0, xu, xk, fu, fk, out, hg1, _, _, _, _, hfwd, hset⟩ :=
      fpStep_spec hstep
    have hlf4 : hist0.2.length = 4 := by rw [hlf, hsalen]
    have hidx : hist0.2.length - (1 + 1) = 2 := by omega
    obtain ⟨fp0, pre, sk, hfp0, _, hfp0mlp⟩ := fp_module_zero hfps rfl
    have hg1' : pyGetNeg model.FP_modules 1 = .ok fp0 := by
      unfold pyGetNeg
      rw [if_pos ⟨le_refl 1, by omega⟩]
      unfold pyGet
      rw [hfplen]
      simp only [Nat.sub_self]
      rw [hfp0]
    have hfpm0 : fpm0 = fp0 := by
      rw [hg1'] at hg1
      injection hg1 with h'
      exact h'.symm
    have hlfin : lfin = hist0.2.set 2 (some out) := by
      rw [← hlast', hset, hidx]
    injection hpair with hpair'
    have hfull2 : pointnet2_forward_full model pc = .ok (hist0.1, lfin) := by
      rw [horig, ← hpair']
    have hfull3 : (Except.ok hist : Except PyError _)
        = .ok (hist0.1, hist0.2.set 2 (some out)) := by
      rw [← hpair', hlfin]
    refine ⟨hist0, out, hloop, hfull3, ?_, ?_⟩
    · unfold pointnet2_forward
      rw [hfull2]
      simp only [Except.map]
      rw [hlx', hlfin, hlf']
      rfl
    · intro r hr
      have := fp_forward_width hfwd r hr
      rw [hfpm0, hfp0mlp] at this
      rw [this]
      exact getLastD_cons_ne _ _ hf0ne

unseal Rat.add Rat.mul Rat.inv Rat.sub in
/-- Witness for the amended C1 at the concrete 3-SA / 1-FP model. -/
theorem C1_amended_partial_decoder_witness :
    ∃ sa_hist out,
      saLoop c1model.SA_modules (some (breakUpPc c1pc).1) (breakUpPc c1pc).2
          = .ok sa_hist ∧
      pointnet2_forward_full c1model c1pc
          = .ok (sa_hist.1, sa_hist.2.set 2 (some out)) ∧
      pointnet2_forward c1model c1pc
          = .ok (some (breakUpPc c1pc).1, (breakUpPc c1pc).2) ∧
      ∀ r ∈ out, r.length = ([7] : List ℕ).getLastD 0 :=
  C1_amended_partial_decoder 2 true [some 4, some 3, some 3]
    [[100], [100], [100]] [[2], [2], [2]] [[[3]], [[2]], [[4]]] [7] c1model c1pc
    (by decide) (by decide) (by decide) (by decide)

/-- The `+= 3` adjustment never changes a spec's declared output width when
the spec has at least one genuine layer (length ≥ 2). -/
theorem saSpecAdjust_lastD {u : Bool} {s s' : List ℕ}
    (h : saSpecAdjust u s = .ok s') (hs : 2 ≤ s.length) :
    s'.getLastD 0 = s.getLastD 0 := by
  unfold saSpecAdjust at h
  cases u with
  | false =>
    injection h with h'
    rw [h']
  | true =>
    cases s with
    | nil => cases hs
    | cons a t =>
      simp only [if_pos rfl] at h
      injection h with h'
      rw [← h']
      cases t with
      | nil => cases hs with | step h'' => cases h''
      | cons b t' =>
        have e1 : ((a + 3) :: b :: t').getLastD 0 = (b :: t').getLastD 0 :=
          getLastD_cons_ne _ _ (by simp)
        have e2 : (a :: b :: t').getLastD 0 = (b :: t').getLastD 0 :=
          getLastD_cons_ne _ _ (by simp)
        rw [e1, e2]

/-- The constructor loop keeps one grouper and one spec per scale and keeps
every scale's declared output width. -/
theorem saInitLoop_lasts {np : Option ℕ} {u : Bool} :
    ∀ {rs : List ℚ} {ns : List ℕ} {specs : List (List ℕ)}
      {res : List Grouper × List (List ℕ)},
      saInitLoop np u rs ns specs = .ok res →
      rs.length = ns.length → ns.length = specs.length →
      (∀ s ∈ specs, 2 ≤ s.length) →
      res.1.length = specs.length ∧
        res.2.map scaleOutWidth = specs.map scaleOutWidth := by
  intro rs
  induction rs with
  | nil =>
    intro ns specs res h h1 h2 _
    simp only [List.length_nil] at h1
    have hspecs : specs = [] := List.length_eq_zero.mp (by omega)
    subst hspecs
    simp only [saInitLoop] at h
    injection h with h'
    rw [← h']
    exact ⟨rfl, rfl⟩
  | cons r rs' ih =>
    intro ns specs res h h1 h2 hlen
    cases ns with
    | nil => cases h1
    | cons n ns' =>
      cases specs with
      | nil => cases h2
      | cons s specs' =>
        simp only [saInitLoop] at h
        obtain ⟨spec', hadj, h⟩ := bindOk h
        obtain ⟨rest, hrest, h⟩ := bindOk h
        injection h with h'
        obtain ⟨ihl, ihm⟩ := ih hrest (by simpa using h1) (by simpa using h2)
          (fun t ht => hlen t (List.mem_cons_of_mem _ ht))
        constructor
        · rw [← h']
          simpa using ihl
        · rw [← h']
          simp only [List.map_cons]
          have hsl : scaleOutWidth spec' = scaleOutWidth s :=
            saSpecAdjust_lastD hadj (hlen s (List.mem_cons_self _ _))
          rw [hsl, ihm]

/-- A successfully constructed `PointnetSAModuleMSG`: one transform per
grouper, and the stored specs keep the argument specs' output widths. -/
theorem pointnetSAModuleMSG_init_widths {np : Option ℕ} {rad : List ℚ}
    {nsmp : List ℕ} {specs : List (List ℕ)} {u : Bool} {pm : String}
    {m : SAModule} {cs : List (List ℕ)}
    (h : pointnetSAModuleMSG_init np rad nsmp specs u pm = .ok (m, cs))
    (hlen : ∀ s ∈ specs, 2 ≤ s.length) :
    m.groupers.length = m.mlps.length ∧
      m.mlps.map scaleOutWidth = specs.map scaleOutWidth := by
  unfold pointnetSAModuleMSG_init at h
  split at h
  · obtain ⟨p, hp, h⟩ := bindOk h
    injection h with h'
    have hm : m = ⟨np, p.1, p.2, pm⟩ := (congrArg Prod.fst h').symm
    next hcond =>
      obtain ⟨hl, hmap⟩ := saInitLoop_lasts hp hcond.1 hcond.2 hlen
      rw [hm]
      refine ⟨?_, hmap⟩
      have : p.2.length = specs.length := by
        have := congrArg List.length hmap
        simpa using this
      simp only []
      omega
  · cases h

/-- Each constructed SA stage keeps its configured scale widths, and the
skip record entry written for it is their sum. -/
theorem p2SALoop_stages {u : Bool} :
    ∀ {nps : List (Option ℕ)} {rads : List (List ℚ)} {nss : List (List ℕ)}
      {mls : List (List (List ℕ))} {inC : ℕ}
      {res : List SAModule × List ℕ × Option ℕ},
      p2SALoop u nps rads nss mls inC = .ok res →
      mls.length = nps.length →
      List.Forall₂ (fun ml (p : SAModule × ℕ) =>
        (∀ spec ∈ ml, spec ≠ []) →
          p.1.groupers.length = p.1.mlps.length ∧
          p.1.mlps.map scaleOutWidth = ml.map scaleOutWidth ∧
          p.2 = (ml.map scaleOutWidth).sum)
        mls (res.1.zip res.2.1) := by
  intro nps
  induction nps with
  | nil =>
    intro rads nss mls inC res h hlen
    have hmls : mls = [] := List.length_eq_zero.mp (by simpa using hlen)
    subst hmls
    simp only [p2SALoop] at h
    injection h with h'
    rw [← h']
    exact .nil
  | cons np nps' ih =>
    intro rads nss mls inC res h hlen
    cases rads with
    | nil => cases h
    | cons rad rads' =>
      cases nss with
      | nil => cases h
      | cons nsmp nss' =>
        cases mls with
        | nil => cases hlen
        | cons ml mls' =>
          simp only [p2SALoop] at h
          obtain ⟨stage, hstage, h⟩ := bindOk h
          obtain ⟨rest, hrest, h⟩ := bindOk h
          injection h with h'
          have hzip : res.1.zip res.2.1
              = (stage.1, (ml.map (fun spec => inC :: spec)).map scaleOutWidth
                  |>.sum) :: rest.1.zip rest.2.1 := by
            rw [← h']
            rfl
          rw [hzip]
          refine .cons ?_ (ih hrest (by simpa using hlen))
          intro hne
          have hpref : ∀ s ∈ ml.map (fun spec => inC :: spec), 2 ≤ s.length := by
            intro s hs
            obtain ⟨spec, hspec, hs'⟩ := List.mem_map.mp hs
            rw [← hs']
            have := hne spec hspec
            cases spec with
            | nil => exact absurd rfl this
            | cons a t => simp
          have hmapeq : (ml.map (fun spec => inC :: spec)).map scaleOutWidth
              = ml.map scaleOutWidth := by
            rw [List.map_map]
            refine List.map_congr_left ?_
            intro spec hspec
            exact getLastD_cons_ne _ _ (hne spec hspec)
          obtain ⟨h1, h2⟩ := pointnetSAModuleMSG_init_widths
            (by rw [← hstage]) hpref
          exact ⟨h1, by rw [h2, hmapeq], by rw [hmapeq]⟩

/-- C3: for every SA stage of a constructed `Pointnet2MSG` and every
successful forward call, each output feature row's channel width equals the
sum over the stage's configured scales of that scale's final transform width
`mlps[i][k][-1]` — an expression independent of `use_xyz`, over which the
statement is quantified — and that sum is exactly the value recorded as
`skip_channel_list[i + 1]` at construction time. -/
theorem C3_sa_stage_width (inC : ℕ) (uxyz : Bool) (nps : List (Option ℕ))
    (rads : List (List ℚ)) (nss : List (List ℕ)) (mls : List (List (List ℕ)))
    (fpm : List (List ℕ)) (model : Pointnet2MSG) (i : ℕ) (stage : SAModule)
    (mli : List (List ℕ))
    (hinit : pointnet2MSG_init inC uxyz nps rads nss mls fpm = .ok model)
    (hlen : mls.length = nps.length)
    (hstage : model.SA_modules.get? i = some stage)
    (hmli : mls.get? i = some mli)
    (hne : ∀ spec ∈ mli, spec ≠ [])
    (xyz : List Point) (feats : Option FeatTensor) (nxa : Option (List Point))
    (c : Option (List Point)) (f : FeatTensor)
    (hfwd : sa_forward stage xyz feats nxa = .ok (c, f)) :
    (∀ r ∈ f, r.length = (mli.map scaleOutWidth).sum) ∧
      model.skip_channel_list.get? (i + 1)
        = some ((mli.map scaleOutWidth).sum) := by
  obtain ⟨sa, hsa, hSAmod, hskiprec, _⟩ := pointnet2MSG_init_parts hinit
  have hlen1 : sa.1.length = nps.length := (p2SALoop_length hsa).1
  have hlen2 : sa.2.1.length = nps.length := (p2SALoop_length hsa).2
  have hforall := p2SALoop_stages hsa hlen
  have hi : i < mls.length := by
    by_contra hcon
    rw [List.get?_eq_none.mpr (by omega)] at hmli
    cases hmli
  have hziplen : (sa.1.zip sa.2.1).length = nps.length := by
    rw [List.length_zip, hlen1, hlen2]
    exact Nat.min_self _
  have hi2 : i < (sa.1.zip sa.2.1).length := by omega
  have hP := (List.forall₂_iff_get.mp hforall).2 i hi hi2
  have hmlget : mls.get ⟨i, hi⟩ = mli := by
    rw [List.get?_eq_get hi] at hmli
    injection hmli with h'
  have hi1 : i < sa.1.length := by omega
  have hi3 : i < sa.2.1.length := by omega
  have hzget : (sa.1.zip sa.2.1).get ⟨i, hi2⟩
      = (sa.1.get ⟨i, hi1⟩, sa.2.1.get ⟨i, hi3⟩) := by
    simp [List.get_eq_getElem, List.getElem_zip]
  have hstget : sa.1.get ⟨i, hi1⟩ = stage := by
    rw [hSAmod] at hstage
    rw [List.get?_eq_get hi1] at hstage
    injection hstage with h'
  rw [hmlget, hzget, hstget] at hP
  obtain ⟨hglen, hmap, hskip⟩ := hP hne
  constructor
  · intro r hr
    have := sa_forward_width hglen hfwd r hr
    rw [this]
    have := congrArg List.sum hmap
    rw [← this]
  · rw [hskiprec]
    rw [List.get?_cons_succ, List.get?_eq_get hi3]
    exact congrArg some hskip

unseal Rat.add Rat.mul Rat.inv Rat.sub in
/-- Witness for C3 at stage 0 of the concrete 3-stage model: output rows of
width 3 and `skip_channel_list[1] = 3`. -/
theorem C3_sa_stage_width_witness :
    (∀ r ∈ ([[5, 5, 5], [1, 1, 1], [3, 3, 3], [4, 4, 4]] : FeatTensor),
        r.length = (([[3]] : List (List ℕ)).map scaleOutWidth).sum) ∧
      c1model.skip_channel_list.get? 1
        = some ((([[3]] : List (List ℕ)).map scaleOutWidth).sum) :=
  C3_sa_stage_width 2 true [some 4, some 3, some 3] [[100], [100], [100]]
    [[2], [2], [2]] [[[3]], [[2]], [[4]]] [[7]] c1model 0
    ⟨some 4, [.queryAndGroup 100 2 true], [[5, 3]], "max_pool"⟩ [[3]]
    (by decide) (by decide) (by decide) (by decide) (by decide)
    [(0, 0, 0), (1, 0, 0), (2, 0, 0), (3, 0, 0), (4, 0, 0)]
    (some [[1, 1], [2, 2], [3, 3], [4, 4], [5, 5]]) none
    (some [(0, 0, 0), (4, 0, 0), (2, 0, 0), (1, 0, 0)])
    [[5, 5, 5], [1, 1, 1], [3, 3, 3], [4, 4, 4]]
    (by decide)
